import Mathlib

/-!
Verification development for `lab.py`, a small Scheme-like interpreter.

The Python source is shallowly embedded below:

* Python exceptions become the `Err` sum type; Python host-level
  exceptions that are not `SchemeError` subclasses (`IndexError`,
  `TypeError`, `ZeroDivisionError`, `RecursionError`) get their own
  constructors, since several properties distinguish interpreter errors
  from host crashes.
* parsed expressions (`parse` output: Python ints/floats/bools/`Nil`,
  strings for symbols, and lists) become the `Expr` inductive;
* runtime values become the `Value` inductive.  Python `None` (which
  `evaluate` can produce, e.g. from a zero-operand `begin`, and which
  `Frame.get` uses as its "unbound" sentinel) is the `Value.none`
  constructor.  `Pair` objects have identity (Python defines no
  `__eq__` on `Pair`), so pairs live in a heap (`State.pairs`) and a
  pair value is a heap index; `==` on pairs compares indices, which
  models CPython identity comparison because `cons` always allocates a
  fresh object.  Python floats are modelled with exact rational
  payloads (`Rat`); no claim depends on IEEE rounding.  Closures
  (`Functions` objects) are modelled structurally; no claim compares
  closures for identity.
* `Frame` objects are mutable and shared (closures capture them), so
  frames live in a heap as well (`State.frames`), and environments are
  frame indices.  Parent chains always point to previously allocated
  frames, so chain walks are implemented with `frames.length` fuel.
* `evaluate`'s `while True` dispatch loop is modelled with a step
  budget `fuel` (exhaustion is the artificial `Err.outOfGas`, marking
  only that the budget ran out, never a behavior of the program), and
  the Python call stack is modelled with a separate `depth` budget:
  every place the Python code performs a *nested* call to `evaluate`
  goes through `nest`, which consumes one unit of `depth`
  (`Err.stackOverflow` models Python's `RecursionError`), while the
  iterative replacement of `tree`/`frame` for closure application
  continues with `depth` unchanged.
* Python dicts with non-string keys are reachable (e.g.
  `(define (1 x) x)` binds the integer key `1`); such bindings can
  never be read back by symbol lookup, so they are not recorded
  (commented at each spot).
-/

namespace LispPy

/-- Error kinds: the three `SchemeError` subclasses raised by the
interpreter, the Python host exceptions reachable from the core, and
the artificial budget marker `outOfGas` used by the embedding. -/
inductive Err where
  | evalError      -- SchemeEvaluationError
  | nameError      -- SchemeNameError
  | syntaxError    -- SchemeSyntaxError
  | indexError     -- Python IndexError
  | typeError      -- Python TypeError
  | zeroDivisionError -- Python ZeroDivisionError
  | stackOverflow  -- Python RecursionError
  | outOfGas       -- embedding artifact: step budget exhausted
deriving DecidableEq, Repr

/-- Parsed expressions: the output type of `parse` (Python ints,
floats, booleans, `Nil()`, strings-as-symbols, and nested lists). -/
inductive Expr where
  | int (n : Int)
  | float (q : Rat)
  | bool (b : Bool)
  | nil
  | sym (s : String)
  | list (es : List Expr)

/-- The builtin procedures registered in `scheme_builtins`. -/
inductive BName where
  | add | sub | mul | divB | equalQ | gtB | ltB | geB | leB | notF
  | consB | carB | cdrB | listB | isListB | lengthB | listRefB | appendB
deriving DecidableEq, Repr

/-- Runtime values.  `pair pid` is an index into `State.pairs`
(Python `Pair` objects compare by identity); `closure` models a
`Functions` object (parameters expression, body, captured frame id);
`none` is the Python `None` object. -/
inductive Value where
  | int (n : Int)
  | float (q : Rat)
  | bool (b : Bool)
  | nil
  | pair (pid : Nat)
  | closure (params : Expr) (body : Expr) (fid : Nat)
  | builtin (b : BName)
  | none

/-- The Python check `value is None` used by `evaluate` and `set!`. -/
def isNone : Value → Bool
  | .none => true
  | _ => false

/-! ### Decidable equality for the embedded syntax and values

(`deriving` does not handle the nested `List Expr` occurrence, so the
decision procedure for `Expr` is written out.) -/

mutual

/-- Decidable equality of expressions. -/
def Expr.decEq : (a b : Expr) → Decidable (a = b)
  | .int a, .int b =>
    if h : a = b then isTrue (h ▸ rfl)
    else isFalse (fun hh => h (by injection hh))
  | .float a, .float b =>
    if h : a = b then isTrue (h ▸ rfl)
    else isFalse (fun hh => h (by injection hh))
  | .bool a, .bool b =>
    if h : a = b then isTrue (h ▸ rfl)
    else isFalse (fun hh => h (by injection hh))
  | .nil, .nil => isTrue rfl
  | .sym a, .sym b =>
    if h : a = b then isTrue (h ▸ rfl)
    else isFalse (fun hh => h (by injection hh))
  | .list as, .list bs =>
    match Expr.decEqList as bs with
    | isTrue h => isTrue (h ▸ rfl)
    | isFalse h => isFalse (fun hh => h (by injection hh))
  | .int _, .float _ => isFalse (fun h => Expr.noConfusion h)
  | .int _, .bool _ => isFalse (fun h => Expr.noConfusion h)
  | .int _, .nil => isFalse (fun h => Expr.noConfusion h)
  | .int _, .sym _ => isFalse (fun h => Expr.noConfusion h)
  | .int _, .list _ => isFalse (fun h => Expr.noConfusion h)
  | .float _, .int _ => isFalse (fun h => Expr.noConfusion h)
  | .float _, .bool _ => isFalse (fun h => Expr.noConfusion h)
  | .float _, .nil => isFalse (fun h => Expr.noConfusion h)
  | .float _, .sym _ => isFalse (fun h => Expr.noConfusion h)
  | .float _, .list _ => isFalse (fun h => Expr.noConfusion h)
  | .bool _, .int _ => isFalse (fun h => Expr.noConfusion h)
  | .bool _, .float _ => isFalse (fun h => Expr.noConfusion h)
  | .bool _, .nil => isFalse (fun h => Expr.noConfusion h)
  | .bool _, .sym _ => isFalse (fun h => Expr.noConfusion h)
  | .bool _, .list _ => isFalse (fun h => Expr.noConfusion h)
  | .nil, .int _ => isFalse (fun h => Expr.noConfusion h)
  | .nil, .float _ => isFalse (fun h => Expr.noConfusion h)
  | .nil, .bool _ => isFalse (fun h => Expr.noConfusion h)
  | .nil, .sym _ => isFalse (fun h => Expr.noConfusion h)
  | .nil, .list _ => isFalse (fun h => Expr.noConfusion h)
  | .sym _, .int _ => isFalse (fun h => Expr.noConfusion h)
  | .sym _, .float _ => isFalse (fun h => Expr.noConfusion h)
  | .sym _, .bool _ => isFalse (fun h => Expr.noConfusion h)
  | .sym _, .nil => isFalse (fun h => Expr.noConfusion h)
  | .sym _, .list _ => isFalse (fun h => Expr.noConfusion h)
  | .list _, .int _ => isFalse (fun h => Expr.noConfusion h)
  | .list _, .float _ => isFalse (fun h => Expr.noConfusion h)
  | .list _, .bool _ => isFalse (fun h => Expr.noConfusion h)
  | .list _, .nil => isFalse (fun h => Expr.noConfusion h)
  | .list _, .sym _ => isFalse (fun h => Expr.noConfusion h)

/-- Decidable equality of expression lists. -/
def Expr.decEqList : (as bs : List Expr) → Decidable (as = bs)
  | [], [] => isTrue rfl
  | [], _ :: _ => isFalse (fun h => List.noConfusion h)
  | _ :: _, [] => isFalse (fun h => List.noConfusion h)
  | a :: as, b :: bs =>
    match Expr.decEq a b with
    | isTrue h1 =>
      match Expr.decEqList as bs with
      | isTrue h2 => isTrue (h1 ▸ h2 ▸ rfl)
      | isFalse h2 => isFalse (fun hh => h2 (by injection hh))
    | isFalse h1 => isFalse (fun hh => h1 (by injection hh))

end

instance : DecidableEq Expr := Expr.decEq

deriving instance DecidableEq for LispPy.Value

/-- One `Frame` object: its dict (`self.map`) and `self.parent`
(a frame id, or root). -/
structure Frame where
  map : List (String × Value)
  parent : Option Nat

/-- The mutable heap: all allocated `Frame` objects and all allocated
`Pair` objects (car, cdr), each addressed by allocation index. -/
structure State where
  frames : List Frame
  pairs : List (Value × Value)

deriving instance DecidableEq for LispPy.Frame
deriving instance DecidableEq for LispPy.State

/-- Results of evaluation compare decidably. -/
instance {ε α : Type} [DecidableEq ε] [DecidableEq α] : DecidableEq (Except ε α) :=
  fun a b =>
    match a, b with
    | .ok x, .ok y =>
      if h : x = y then isTrue (h ▸ rfl)
      else isFalse (fun hh => h (by injection hh))
    | .error x, .error y =>
      if h : x = y then isTrue (h ▸ rfl)
      else isFalse (fun hh => h (by injection hh))
    | .ok _, .error _ => isFalse (fun h => Except.noConfusion h)
    | .error _, .ok _ => isFalse (fun h => Except.noConfusion h)

/-! ### Dict operations (Python `dict` with unique keys) -/

/-- `m[k]` lookup. -/
def mapGet : List (String × Value) → String → Option Value
  | [], _ => Option.none
  | (k', v) :: rest, k => if k' = k then some v else mapGet rest k

/-- `k in m`. -/
def mapHas : List (String × Value) → String → Bool
  | [], _ => false
  | (k', _) :: rest, k => k' = k || mapHas rest k

/-- `m[k] = v`: replace in place if present, else append (insertion
order preserved, keys stay unique). -/
def mapSet : List (String × Value) → String → Value → List (String × Value)
  | [], k, v => [(k, v)]
  | (k', v') :: rest, k, v =>
    if k' = k then (k, v) :: rest else (k', v') :: mapSet rest k v

/-- `m.pop(k)`. -/
def mapDel : List (String × Value) → String → List (String × Value)
  | [], _ => []
  | (k', v') :: rest, k => if k' = k then rest else (k', v') :: mapDel rest k

/-! ### Frame heap operations -/

/-- Read a frame object from the heap (indices are always in range on
reachable states; the default is never consulted by the theorems). -/
def getFrame (σ : State) (fid : Nat) : Frame :=
  σ.frames.getD fid ⟨[], Option.none⟩

/-- Overwrite one frame object in the heap. -/
def setFrame (σ : State) (fid : Nat) (fr : Frame) : State :=
  { σ with frames := σ.frames.set fid fr }

/-- `Frame.get`: walk from the local frame to the root; Python returns
the `None` object when no frame binds the key, which is `Value.none`
here.  The fuel bounds the parent walk (parents always point to
earlier allocations, so `frames.length` steps suffice). -/
def frameGetAux : Nat → Nat → String → State → Value
  | 0, _, _, _ => Value.none
  | fuel + 1, fid, k, σ =>
    let fr := getFrame σ fid
    match mapGet fr.map k with
    | some v => v
    | Option.none =>
      match fr.parent with
      | Option.none => Value.none
      | some p => frameGetAux fuel p k σ

/-- `Frame.get` at the standard fuel. -/
def frameGet (fid : Nat) (k : String) (σ : State) : Value :=
  frameGetAux σ.frames.length fid k σ

/-- `Frame.update`: set the key in the nearest frame of the chain that
already binds it; if no frame binds it, do nothing (the Python method
returns silently). -/
def frameUpdateAux : Nat → Nat → String → Value → State → State
  | 0, _, _, _, σ => σ
  | fuel + 1, fid, k, v, σ =>
    let fr := getFrame σ fid
    if mapHas fr.map k then setFrame σ fid { fr with map := mapSet fr.map k v }
    else
      match fr.parent with
      | some p => frameUpdateAux fuel p k v σ
      | Option.none => σ

/-- `Frame.update` at the standard fuel. -/
def frameUpdate (fid : Nat) (k : String) (v : Value) (σ : State) : State :=
  frameUpdateAux σ.frames.length fid k v σ

/-- `Frame.add`: bind in the local frame only. -/
def frameAdd (fid : Nat) (k : String) (v : Value) (σ : State) : State :=
  setFrame σ fid { getFrame σ fid with map := mapSet (getFrame σ fid).map k v }

/-! ### Specification-side lookup

`lookupChainAux` is the found/not-found description of the environment
chain the spec asks for: it reports the nearest frame that binds a
name together with the bound value, or `Option.none` when no frame in
the chain binds it.  It walks exactly like `Frame.get` but never
conflates "unbound" with "bound to the `None` object". -/

/-- Nearest binding frame of the chain and its value, if any. -/
def lookupChainAux : Nat → Nat → String → State → Option (Nat × Value)
  | 0, _, _, _ => Option.none
  | fuel + 1, fid, k, σ =>
    let fr := getFrame σ fid
    match mapGet fr.map k with
    | some v => some (fid, v)
    | Option.none =>
      match fr.parent with
      | Option.none => Option.none
      | some p => lookupChainAux fuel p k σ

/-- Nearest binding of a name in the chain, at the standard fuel. -/
def lookupChain (fid : Nat) (k : String) (σ : State) : Option (Nat × Value) :=
  lookupChainAux σ.frames.length fid k σ

/-- The id of the nearest frame in the chain binding `k`. -/
def nearestBinder (fid : Nat) (k : String) (σ : State) : Option Nat :=
  (lookupChain fid k σ).map (·.1)

/-- The value bound to `k` in the nearest binding frame. -/
def boundValue (fid : Nat) (k : String) (σ : State) : Option Value :=
  (lookupChain fid k σ).map (·.2)


/-! ### Value-level operations of the Python host

Arithmetic and comparison in the source use Python's native operators,
which accept ints, floats and bools (bools coerce to 0/1), and raise
`TypeError` on other kinds.  `==`/`!=` never raise; on `Pair` and
`Functions` objects Python falls back to identity (no `__eq__` is
defined); `Nil` defines structural equality. -/

/-- Numeric reading of a value as an exact integer (Python int or bool). -/
def asIntV : Value → Option Int
  | .int n => some n
  | .bool b => some (if b then 1 else 0)
  | _ => Option.none

/-- Numeric reading of a value (int, float or bool). -/
def asRatV : Value → Option Rat
  | .int n => some (n : Rat)
  | .float q => some q
  | .bool b => some (if b then 1 else 0)
  | _ => Option.none

/-- Python `a + b`. -/
def pyAdd (a b : Value) : Except Err Value :=
  match asIntV a, asIntV b with
  | some x, some y => .ok (.int (x + y))
  | _, _ =>
    match asRatV a, asRatV b with
    | some x, some y => .ok (.float (x + y))
    | _, _ => .error .typeError

/-- Python `a * b`. -/
def pyMul (a b : Value) : Except Err Value :=
  match asIntV a, asIntV b with
  | some x, some y => .ok (.int (x * y))
  | _, _ =>
    match asRatV a, asRatV b with
    | some x, some y => .ok (.float (x * y))
    | _, _ => .error .typeError

/-- Python `a - b`. -/
def pySub (a b : Value) : Except Err Value :=
  match asIntV a, asIntV b with
  | some x, some y => .ok (.int (x - y))
  | _, _ =>
    match asRatV a, asRatV b with
    | some x, some y => .ok (.float (x - y))
    | _, _ => .error .typeError

/-- Python unary `-a`. -/
def pyNeg (a : Value) : Except Err Value :=
  match a with
  | .int n => .ok (.int (-n))
  | .bool b => .ok (.int (-(if b then 1 else 0)))
  | .float q => .ok (.float (-q))
  | _ => .error .typeError

/-- Python `a / b` (true division: the result is always a float). -/
def pyDiv (a b : Value) : Except Err Value :=
  match asRatV a, asRatV b with
  | some x, some y =>
    if y = 0 then .error .zeroDivisionError else .ok (.float (x / y))
  | _, _ => .error .typeError

/-- Python `a < b` (only numeric kinds are comparable). -/
def pyLtB (a b : Value) : Except Err Bool :=
  match asRatV a, asRatV b with
  | some x, some y => .ok (decide (x < y))
  | _, _ => .error .typeError

/-- Python `a <= b`. -/
def pyLeB (a b : Value) : Except Err Bool :=
  match asRatV a, asRatV b with
  | some x, some y => .ok (decide (x ≤ y))
  | _, _ => .error .typeError

/-- Python `a > b`. -/
def pyGtB (a b : Value) : Except Err Bool :=
  match asRatV a, asRatV b with
  | some x, some y => .ok (decide (y < x))
  | _, _ => .error .typeError

/-- Python `a >= b`. -/
def pyGeB (a b : Value) : Except Err Bool :=
  match asRatV a, asRatV b with
  | some x, some y => .ok (decide (y ≤ x))
  | _, _ => .error .typeError

mutual

/-- Structural equality of expressions (used for closure payloads). -/
def Expr.beq : Expr → Expr → Bool
  | .int a, .int b => a == b
  | .float a, .float b => a == b
  | .bool a, .bool b => a == b
  | .nil, .nil => true
  | .sym a, .sym b => a == b
  | .list as, .list bs => Expr.beqList as bs
  | _, _ => false

/-- Pointwise `Expr.beq` on expression lists. -/
def Expr.beqList : List Expr → List Expr → Bool
  | [], [] => true
  | a :: as, b :: bs => Expr.beq a b && Expr.beqList as bs
  | _, _ => false

end

/-- Python `a == b`.  Numbers compare numerically (bools included),
`Nil` structurally, pairs by identity (heap index: `cons` always
allocates a fresh object, so distinct indices are distinct objects).
`Functions` objects compare by identity in Python; they are modelled
structurally here (no claim compares two distinct structurally-equal
closures). -/
def pyEqB (a b : Value) : Bool :=
  match asRatV a, asRatV b with
  | some x, some y => decide (x = y)
  | _, _ =>
    match a, b with
    | .nil, .nil => true
    | .pair p, .pair q => p == q
    | .closure p₁ b₁ f₁, .closure p₂ b₂ f₂ =>
      Expr.beq p₁ p₂ && Expr.beq b₁ b₂ && f₁ == f₂
    | .builtin x, .builtin y => x == y
    | .none, .none => true
    | _, _ => false

/-- Python truthiness: `False`, `0`, `0.0` and `None` are falsy; all
other reachable values (including `Nil()` and `Pair` objects, which
define neither `__bool__` nor `__len__`) are truthy. -/
def truthy : Value → Bool
  | .bool b => b
  | .int n => decide (n ≠ 0)
  | .float q => decide (q ≠ 0)
  | .none => false
  | _ => true

/-! ### Builtin library (`scheme_builtins`) -/

/-- Python's builtin `sum` (bound to `+`): left fold of `+` from `0`. -/
def sumB (args : List Value) : Except Err Value :=
  args.foldlM pyAdd (Value.int 0)

/-- `mult`: left fold of `*` from `1`. -/
def mult (args : List Value) : Except Err Value :=
  args.foldlM pyMul (Value.int 1)

/-- The `-` lambda: `-args[0]` if unary, else `args[0] - sum(args[1:])`.
With zero arguments the `else` branch evaluates `args[0]`, a Python
`IndexError` (not a `SchemeEvaluationError`). -/
def subLambda (args : List Value) : Except Err Value :=
  match args with
  | [] => .error .indexError
  | [a] => pyNeg a
  | a :: rest => do pySub a (← sumB rest)

/-- `div`. -/
def div (args : List Value) : Except Err Value :=
  match args with
  | [] => .error .evalError
  | [a] => pyDiv (.int 1) a
  | a :: rest => do pyDiv a (← mult rest)

/-- The chained-comparison loop of `op_helper`: return `False` at the
first consecutive pair where `cmp` holds, else `True`. -/
def opChain (cmp : Value → Value → Except Err Bool) :
    Value → List Value → Except Err Value
  | _, [] => .ok (.bool true)
  | pre, cur :: rest =>
    match cmp pre cur with
    | .error e => .error e
    | .ok true => .ok (.bool false)
    | .ok false => opChain cmp cur rest

/-- `op_helper`: fewer than two arguments is an evaluation error. -/
def op_helper (args : List Value) (cmp : Value → Value → Except Err Bool) :
    Except Err Value :=
  match args with
  | [] => .error .evalError
  | [_] => .error .evalError
  | pre :: rest => opChain cmp pre rest

/-- `gt` (violation test `a <= b`). -/
def gt (args : List Value) : Except Err Value := op_helper args pyLeB

/-- `lt` (violation test `a >= b`). -/
def lt (args : List Value) : Except Err Value := op_helper args pyGeB

/-- `ge` (violation test `a < b`). -/
def ge (args : List Value) : Except Err Value := op_helper args pyLtB

/-- `le` (violation test `a > b`). -/
def le (args : List Value) : Except Err Value := op_helper args pyGtB

/-- `equal` (violation test `a != b`; `!=` never raises). -/
def equal (args : List Value) : Except Err Value :=
  op_helper args (fun a b => .ok (!pyEqB a b))

/-- `not_func`. -/
def not_func (args : List Value) : Except Err Value :=
  match args with
  | [a] => if truthy a then .ok (.bool false) else .ok (.bool true)
  | _ => .error .evalError

/-! ### Pair heap operations -/

/-- `car` field of an allocated pair (indices are in range on
reachable states). -/
def pairCar (σ : State) (pid : Nat) : Value :=
  (σ.pairs.getD pid (Value.none, Value.none)).1

/-- `cdr` field of an allocated pair. -/
def pairCdr (σ : State) (pid : Nat) : Value :=
  (σ.pairs.getD pid (Value.none, Value.none)).2

/-- Allocate a fresh `Pair(a, b)`. -/
def consAlloc (a b : Value) (σ : State) : Value × State :=
  (.pair σ.pairs.length, { σ with pairs := σ.pairs ++ [(a, b)] })

/-- `cons_func`: exactly two arguments, builds a fresh pair. -/
def cons_func (args : List Value) (σ : State) : Except Err (Value × State) :=
  match args with
  | [a, b] => .ok (consAlloc a b σ)
  | _ => .error .evalError

/-- `car_func`: exactly one argument, which must be a `Pair`. -/
def car_func (args : List Value) (σ : State) : Except Err Value :=
  match args with
  | [cell] =>
    match cell with
    | .pair p => .ok (pairCar σ p)
    | _ => .error .evalError
  | _ => .error .evalError

/-- `cdr_func`: exactly one argument, which must be a `Pair`. -/
def cdr_func (args : List Value) (σ : State) : Except Err Value :=
  match args with
  | [cell] =>
    match cell with
    | .pair p => .ok (pairCdr σ p)
    | _ => .error .evalError
  | _ => .error .evalError

/-- `list_func`: right-folded cons chain ending in `Nil` (each cons via
`cons_func` with exactly two arguments, which never fails; the
innermost pair is allocated first, as in the Python recursion). -/
def list_func : List Value → State → Value × State
  | [], σ => (.nil, σ)
  | a :: rest, σ =>
    let (r, σ') := list_func rest σ
    consAlloc a r σ'

/-- The `while isinstance(cdr, Pair)` walk: follow `cdr` fields until a
non-pair value.  A pair's fields always reference earlier allocations,
so `pairs.length + 1` fuel suffices on reachable states. -/
def cdrWalk : Nat → Value → State → Value
  | 0, v, _ => v
  | fuel + 1, v, σ =>
    match v with
    | .pair p => cdrWalk fuel (pairCdr σ p) σ
    | _ => v

/-- `is_list_helper`: `Nil` is a list; a `Pair` is a list iff its cdr
chain terminates in `Nil`; anything else is not. -/
def is_list_helper (l : Value) (σ : State) : Bool :=
  match l with
  | .nil => true
  | .pair p =>
    match cdrWalk (σ.pairs.length + 1) (pairCdr σ p) σ with
    | .nil => true
    | _ => false
  | _ => false

/-- `is_list_func`: exactly one argument; mirrors the source's
delegation to `is_list_helper` on the cdr of a pair. -/
def is_list_func (args : List Value) (σ : State) : Except Err Value :=
  match args with
  | [obj] =>
    match obj with
    | .nil => .ok (.bool true)
    | .pair p => .ok (.bool (is_list_helper (pairCdr σ p) σ))
    | _ => .ok (.bool false)
  | _ => .error .evalError

/-- Element count of a nil-terminated chain (`inner` of `length_func`);
`Option.none` only on fuel exhaustion, unreachable for proper lists. -/
def chainLength : Nat → Value → State → Option Nat
  | 0, _, _ => Option.none
  | fuel + 1, v, σ =>
    match v with
    | .nil => some 0
    | .pair p => (chainLength fuel (pairCdr σ p) σ).map (· + 1)
    | _ => Option.none

/-- `length_func`: exactly one argument, which must be a proper list. -/
def length_func (args : List Value) (σ : State) : Except Err Value :=
  match args with
  | [obj] =>
    if is_list_helper obj σ then
      match chainLength (σ.pairs.length + 1) obj σ with
      | some n => .ok (.int n)
      | Option.none => .error .outOfGas
    else .error .evalError
  | _ => .error .evalError

/-- The `while index > 0` walk of `list_ref_func`'s `inner`: the index
decrements by one per step (it may be a non-integer float, in which
case the loop exits with a nonzero index and the function falls through
to Python's implicit `return None`). -/
def listRefLoop : Nat → Value → Rat → State → Except Err Value
  | 0, _, _, _ => .error .outOfGas
  | fuel + 1, l, idx, σ =>
    if 0 < idx then
      match l with
      | .pair p =>
        let idx' := idx - 1
        let l' := pairCdr σ p
        match l' with
        | .nil =>
          if 0 ≤ idx' then .error .evalError else listRefLoop fuel l' idx' σ
        | _ => listRefLoop fuel l' idx' σ
      | _ => .error .typeError
    else
      if idx = 0 then
        match l with
        | .pair p => .ok (pairCar σ p)
        | _ => .error .typeError
      else .ok Value.none

/-- `inner` of `list_ref_func` (entry check, then the walk). -/
def listRefInner (l : Value) (idx : Rat) (σ : State) : Except Err Value :=
  match l with
  | .nil => if 0 ≤ idx then .error .evalError else listRefLoop (idx.ceil.toNat + 1) l idx σ
  | _ => listRefLoop (idx.ceil.toNat + 1) l idx σ

/-- `list_ref_func`: exactly two arguments; an improper `Pair` supports
only index `0`; a proper list is indexed by a non-negative number
(`index < 0` raises `TypeError` on a non-numeric index, as in Python). -/
def list_ref_func (args : List Value) (σ : State) : Except Err Value :=
  match args with
  | [l, idx] =>
    if ¬ is_list_helper l σ then
      match l with
      | .pair p =>
        if pyEqB idx (.int 0) then .ok (pairCar σ p) else .error .evalError
      | _ => .error .evalError
    else
      match asRatV idx with
      | Option.none => .error .typeError
      | some q =>
        if q < 0 then .error .evalError
        else listRefInner l q σ
  | _ => .error .evalError

/-- Cars along a cdr chain until a non-pair (the collection loop of
`append_func`). -/
def chainToList : Nat → Value → State → List Value
  | 0, _, _ => []
  | fuel + 1, v, σ =>
    match v with
    | .pair p => pairCar σ p :: chainToList fuel (pairCdr σ p) σ
    | _ => []

/-- The collection phase of `append_func`: every argument must be a
proper list; their elements are concatenated in order. -/
def appendCollect : List Value → State → Except Err (List Value)
  | [], _ => .ok []
  | l :: rest, σ =>
    if is_list_helper l σ then
      match appendCollect rest σ with
      | .ok items => .ok (chainToList (σ.pairs.length + 1) l σ ++ items)
      | .error e => .error e
    else .error .evalError

/-- `append_func`: zero arguments give `Nil`; otherwise collect all
elements (failing on any non-list) and build one fresh proper list. -/
def append_func (args : List Value) (σ : State) : Except Err (Value × State) :=
  match args with
  | [] => .ok (.nil, σ)
  | _ =>
    match appendCollect args σ with
    | .ok items => .ok (list_func items σ)
    | .error e => .error e

/-- Dispatch of a builtin call `func(exps)`; only `cons`, `list` and
`append` allocate. -/
def applyBuiltin (b : BName) (args : List Value) (σ : State) :
    (Except Err Value) × State :=
  match b with
  | .add => (sumB args, σ)
  | .sub => (subLambda args, σ)
  | .mul => (mult args, σ)
  | .divB => (div args, σ)
  | .equalQ => (equal args, σ)
  | .gtB => (gt args, σ)
  | .ltB => (lt args, σ)
  | .geB => (ge args, σ)
  | .leB => (le args, σ)
  | .notF => (not_func args, σ)
  | .consB =>
    match cons_func args σ with
    | .ok (v, σ') => (.ok v, σ')
    | .error e => (.error e, σ)
  | .carB => (car_func args σ, σ)
  | .cdrB => (cdr_func args σ, σ)
  | .listB =>
    let (v, σ') := list_func args σ
    (.ok v, σ')
  | .isListB => (is_list_func args σ, σ)
  | .lengthB => (length_func args σ, σ)
  | .listRefB => (list_ref_func args σ, σ)
  | .appendB =>
    match append_func args σ with
    | .ok (v, σ') => (.ok v, σ')
    | .error e => (.error e, σ)
/-! ### Frames for calls, `let`, and the global environment -/

/-- Python `len`/`zip` over a `Functions.parameters` payload: a list
iterates its elements; a string iterates its characters (each a
one-character string, usable as a dict key, hence a one-character
symbol here); any other payload raises `TypeError` at `len`. -/
def paramList : Expr → Except Err (List Expr)
  | .list es => .ok es
  | .sym s => .ok (s.data.map fun c => .sym (String.mk [c]))
  | _ => .error .typeError

/-- The dict built by `Frame.__init__` from `zip(parms, args)`.
Non-string keys (non-symbol parameters) would be bound under Python
keys that no symbol lookup can ever read back; they are skipped. -/
def bindParams (ps : List Expr) (args : List Value) : List (String × Value) :=
  (ps.zip args).foldl
    (fun m pv =>
      match pv.1 with
      | .sym s => mapSet m s pv.2
      | _ => m)
    []

/-- `Frame.__init__(parms, args, parent)`: raises
`SchemeEvaluationError` when the parameter and argument counts differ
(the partially built object is unreachable, so the heap is unchanged);
otherwise allocates a fresh frame and returns its id. -/
def mkFrame (paramsE : Expr) (args : List Value) (parent : Option Nat)
    (σ : State) : Except Err (Nat × State) :=
  match paramList paramsE with
  | .error e => .error e
  | .ok ps =>
    if ps.length ≠ args.length then .error .evalError
    else .ok (σ.frames.length,
              { σ with frames := σ.frames ++ [⟨bindParams ps args, parent⟩] })

/-- `Frame(parent=...)`: a fresh empty frame with the given parent. -/
def newFrame (parent : Nat) (σ : State) : Nat × State :=
  (σ.frames.length, { σ with frames := σ.frames ++ [⟨[], some parent⟩] })

/-- The `scheme_builtins` dict, in source order. -/
def scheme_builtins : List (String × Value) :=
  [("+", .builtin .add), ("-", .builtin .sub), ("*", .builtin .mul),
   ("/", .builtin .divB), ("equal?", .builtin .equalQ),
   (">", .builtin .gtB), ("<", .builtin .ltB),
   (">=", .builtin .geB), ("<=", .builtin .leB),
   ("not", .builtin .notF), ("cons", .builtin .consB),
   ("car", .builtin .carB), ("cdr", .builtin .cdrB),
   ("list", .builtin .listB), ("list?", .builtin .isListB),
   ("length", .builtin .lengthB), ("list-ref", .builtin .listRefB),
   ("append", .builtin .appendB)]

/-- `init_frame = Frame(scheme_builtins.keys(), scheme_builtins.values())`. -/
def init_frame : Frame := ⟨scheme_builtins, Option.none⟩

/-- The heap holding only the global builtin frame (id `0`). -/
def baseState : State := ⟨[init_frame], []⟩

/-- The nine special forms checked by name before application. -/
def isSpecialForm : Expr → Bool
  | .sym s =>
    s == "define" || s == "lambda" || s == "if" || s == "and" ||
    s == "or" || s == "begin" || s == "del" || s == "let" || s == "set!"
  | _ => false

/-! ### The evaluator

`evaluate` is the `while True` dispatch loop; `fuel` counts loop
iterations (top-level entries included).  Every place the Python source
makes a *nested* call to `evaluate` is routed through `nest`, which
spends one unit of the host stack budget `depth`; the closure
application step instead replaces `tree` and `frame` and continues with
`depth` unchanged, exactly as the source replaces its loop-local
variables. -/

/-- The seven mutually recursive evaluation procedures, stripped of
their shared step budget: `interp fuel` below ties the knot one budget
layer at a time (plain structural recursion on the budget), so that
every call from one procedure into another moves to the next-lower
layer. -/
structure Interp where
  nest : Nat → Expr → Nat → State → (Except Err Value) × State
  evalElems : Nat → List Expr → Nat → State → (Except Err (List Value)) × State
  evalSeq : Nat → List Expr → Nat → State → Value → (Except Err Value) × State
  evalAnd : Nat → List Expr → Nat → State → (Except Err Value) × State
  evalOr : Nat → List Expr → Nat → State → (Except Err Value) × State
  evalLetLoop : Nat → List Expr → Nat → Nat → State → Expr → (Except Err Value) × State
  evaluate : Nat → Expr → Nat → State → (Except Err Value) × State

/-- Budget exhausted: every procedure reports the artificial
`outOfGas` (never a behavior of the Python program, only a marker that
the chosen budget was too small). -/
def interpStop : Interp where
  nest := fun _ _ _ σ => (.error .outOfGas, σ)
  evalElems := fun _ _ _ σ => (.error .outOfGas, σ)
  evalSeq := fun _ _ _ σ _ => (.error .outOfGas, σ)
  evalAnd := fun _ _ _ σ => (.error .outOfGas, σ)
  evalOr := fun _ _ _ σ => (.error .outOfGas, σ)
  evalLetLoop := fun _ _ _ _ σ _ => (.error .outOfGas, σ)
  evaluate := fun _ _ _ σ => (.error .outOfGas, σ)

/-- One budget layer of the evaluator.  Each field is the direct
translation of the corresponding piece of the Python source; `prev` is
the evaluator at the next-lower budget. -/
def interpStep (prev : Interp) : Interp where
  /- A nested Python call `evaluate(exp, frame)`: one stack frame
  (`depth`); `RecursionError` (modelled `stackOverflow`) when the host
  stack budget is exhausted. -/
  nest := fun depth e fid σ =>
    match depth with
    | 0 => (.error .stackOverflow, σ)
    | d + 1 => prev.evaluate d e fid σ
  /- `[evaluate(exp, frame) for exp in tree]`, left to right. -/
  evalElems := fun depth es fid σ =>
    match es with
    | [] => (.ok [], σ)
    | e :: rest =>
      match prev.nest depth e fid σ with
      | (.ok v, σ₁) =>
        match prev.evalElems depth rest fid σ₁ with
        | (.ok vs, σ₂) => (.ok (v :: vs), σ₂)
        | (.error err, σ₂) => (.error err, σ₂)
      | (.error err, σ₁) => (.error err, σ₁)
  /- The `begin` loop: `value` starts as Python `None`. -/
  evalSeq := fun depth es fid σ acc =>
    match es with
    | [] => (.ok acc, σ)
    | e :: rest =>
      match prev.nest depth e fid σ with
      | (.ok v, σ₁) => prev.evalSeq depth rest fid σ₁ v
      | err => err
  /- The `and` loop: `False` at the first falsy operand, else `True`. -/
  evalAnd := fun depth conds fid σ =>
    match conds with
    | [] => (.ok (.bool true), σ)
    | c :: rest =>
      match prev.nest depth c fid σ with
      | (.ok v, σ₁) =>
        if truthy v then prev.evalAnd depth rest fid σ₁
        else (.ok (.bool false), σ₁)
      | err => err
  /- The `or` loop: `True` at the first truthy operand, else `False`. -/
  evalOr := fun depth conds fid σ =>
    match conds with
    | [] => (.ok (.bool false), σ)
    | c :: rest =>
      match prev.nest depth c fid σ with
      | (.ok v, σ₁) =>
        if truthy v then (.ok (.bool true), σ₁)
        else prev.evalOr depth rest fid σ₁
      | err => err
  /- The `let` binding loop, then the body: each initializer is
  evaluated (nested call) in the *outer* frame; each binding is added
  to the *inner* frame; the body is evaluated (nested call) in the
  inner frame.  A binding item must have `len(item) == 2`: a
  two-element list is the ordinary case; a two-character string also
  passes (its "name" and "initializer" are its characters); `len` of
  any other item raises `TypeError`.  A list-valued name is an
  unhashable dict key (`TypeError`); other non-symbol names would be
  bound under Python keys no symbol lookup can read back, so the
  binding is skipped. -/
  evalLetLoop := fun depth items outer inner σ body =>
    match items with
    | [] => prev.nest depth body inner σ
    | item :: rest =>
      match item with
      | .list [varE, initE] =>
        match prev.nest depth initE outer σ with
        | (.ok v, σ₁) =>
          match varE with
          | .sym s => prev.evalLetLoop depth rest outer inner (frameAdd inner s v σ₁) body
          | .list _ => (.error .typeError, σ₁)
          | _ => prev.evalLetLoop depth rest outer inner σ₁ body
        | err => err
      | .list _ => (.error .evalError, σ)
      | .sym s =>
        match s.data with
        | [c₀, c₁] =>
          match prev.nest depth (.sym (String.mk [c₁])) outer σ with
          | (.ok v, σ₁) =>
            prev.evalLetLoop depth rest outer inner
              (frameAdd inner (String.mk [c₀]) v σ₁) body
          | err => err
        | _ => (.error .evalError, σ)
      | _ => (.error .typeError, σ)
  /- The dispatch loop of `evaluate`, in source order: symbol lookup,
  self-evaluating literals, empty-list check, then the chain of
  `if op == 'define': ... elif op == 'lambda': ...` checks for the nine
  special forms, then application.  In the application case a closure
  operator replaces `tree` and `frame` and continues the loop with
  `depth` unchanged (the iterative tail-call step); all other
  sub-evaluations go through `nest`, which spends host stack. -/
  evaluate := fun depth tree fid σ =>
    match tree with
    | .sym s =>
      let v := frameGet fid s σ
      if isNone v then (.error .nameError, σ) else (.ok v, σ)
    | .int n => (.ok (.int n), σ)
    | .float q => (.ok (.float q), σ)
    | .bool b => (.ok (.bool b), σ)
    | .nil => (.ok .nil, σ)
    | .list [] => (.error .evalError, σ)
    | .list (op :: rest) =>
      if op = Expr.sym "define" then
        match rest with
        | [nameE, valE] =>
          match nameE with
          | .list (keyE :: params) =>
            let fn := Value.closure (.list params) valE fid
            match keyE with
            | .sym s => (.ok fn, frameAdd fid s fn σ)
            | .list _ => (.error .typeError, σ)
            | _ => (.ok fn, σ)
          | .list [] => (.error .indexError, σ)
          | .sym s =>
            match prev.nest depth valE fid σ with
            | (.ok v, σ₁) => (.ok v, frameAdd fid s v σ₁)
            | err => err
          | _ =>
            match prev.nest depth valE fid σ with
            | (.ok v, σ₁) => (.ok v, σ₁)
            | err => err
        | _ => (.error .evalError, σ)
      else if op = Expr.sym "lambda" then
        match rest with
        | [paramsE, bodyE] => (.ok (.closure paramsE bodyE fid), σ)
        | _ => (.error .evalError, σ)
      else if op = Expr.sym "if" then
        match rest with
        | [condE, tE, eE] =>
          match prev.nest depth condE fid σ with
          | (.ok v, σ₁) =>
            if truthy v then prev.nest depth tE fid σ₁
            else prev.nest depth eE fid σ₁
          | err => err
        | _ => (.error .evalError, σ)
      else if op = Expr.sym "and" then prev.evalAnd depth rest fid σ
      else if op = Expr.sym "or" then prev.evalOr depth rest fid σ
      else if op = Expr.sym "begin" then prev.evalSeq depth rest fid σ Value.none
      else if op = Expr.sym "del" then
        match rest with
        | [keyE] =>
          match keyE with
          | .sym s =>
            let fr := getFrame σ fid
            if mapHas fr.map s then
              (.ok ((mapGet fr.map s).getD Value.none),
               setFrame σ fid { fr with map := mapDel fr.map s })
            else (.error .nameError, σ)
          | .list _ => (.error .typeError, σ)
          | _ => (.error .nameError, σ)
        | _ => (.error .evalError, σ)
      else if op = Expr.sym "let" then
        match rest with
        | [bindsE, bodyE] =>
          let (inner, σ₁) := newFrame fid σ
          match bindsE with
          | .list items => prev.evalLetLoop depth items fid inner σ₁ bodyE
          | .sym s =>
            if s.isEmpty then prev.nest depth bodyE inner σ₁
            else (.error .evalError, σ₁)
          | _ => (.error .typeError, σ₁)
        | _ => (.error .evalError, σ)
      else if op = Expr.sym "set!" then
        match rest with
        | [varE, expE] =>
          match varE with
          | .sym s =>
            let v := frameGet fid s σ
            if isNone v then (.error .nameError, σ)
            else
              match prev.nest depth expE fid σ with
              | (.ok value, σ₁) => (.ok value, frameUpdate fid s value σ₁)
              | err => err
          | .list _ => (.error .typeError, σ)
          | _ => (.error .nameError, σ)
        | _ => (.error .evalError, σ)
      else
        match prev.evalElems depth (op :: rest) fid σ with
        | (.ok vs, σ₁) =>
          match vs with
          | func :: exps =>
            match func with
            | .closure ps body cfid =>
              match mkFrame ps exps (some cfid) σ₁ with
              | .ok (nfid, σ₂) => prev.evaluate depth body nfid σ₂
              | .error e => (.error e, σ₁)
            | .builtin b => applyBuiltin b exps σ₁
            | _ => (.error .evalError, σ₁)
          | [] => (.error .evalError, σ₁)
        | (.error err, σ₁) => (.error err, σ₁)

/-- The evaluator at a given step budget. -/
def interp : Nat → Interp
  | 0 => interpStop
  | f + 1 => interpStep (interp f)

/-- `evaluate(tree, frame)` at a step budget and a host stack budget. -/
def evaluate (fuel depth : Nat) (tree : Expr) (fid : Nat) (σ : State) :
    (Except Err Value) × State :=
  (interp fuel).evaluate depth tree fid σ

/-- A nested call `evaluate(exp, frame)` (one host stack frame). -/
def nest (fuel depth : Nat) (e : Expr) (fid : Nat) (σ : State) :
    (Except Err Value) × State :=
  (interp fuel).nest depth e fid σ

/-- `[evaluate(exp, frame) for exp in tree]`. -/
def evalElems (fuel depth : Nat) (es : List Expr) (fid : Nat) (σ : State) :
    (Except Err (List Value)) × State :=
  (interp fuel).evalElems depth es fid σ

/-- The `begin` loop. -/
def evalSeq (fuel depth : Nat) (es : List Expr) (fid : Nat) (σ : State)
    (acc : Value) : (Except Err Value) × State :=
  (interp fuel).evalSeq depth es fid σ acc

/-- The `and` loop. -/
def evalAnd (fuel depth : Nat) (conds : List Expr) (fid : Nat) (σ : State) :
    (Except Err Value) × State :=
  (interp fuel).evalAnd depth conds fid σ

/-- The `or` loop. -/
def evalOr (fuel depth : Nat) (conds : List Expr) (fid : Nat) (σ : State) :
    (Except Err Value) × State :=
  (interp fuel).evalOr depth conds fid σ

/-- The `let` binding loop. -/
def evalLetLoop (fuel depth : Nat) (items : List Expr) (outer inner : Nat)
    (σ : State) (body : Expr) : (Except Err Value) × State :=
  (interp fuel).evalLetLoop depth items outer inner σ body

/-- One top-level `evaluate(tree)` with `frame=None`: a fresh child of
the global builtin frame is allocated and used. -/
def evalTop (fuel depth : Nat) (tree : Expr) : (Except Err Value) × State :=
  let (fid, σ₁) := newFrame 0 baseState
  evaluate fuel depth tree fid σ₁

/-! ### The parser

`tokenize` output is a list of tokens: parentheses and other
whitespace-separated words.  `parse` classifies every non-parenthesis
token via `number_or_symbol`; the classification itself (Python
`int()`/`float()` literal syntax) is abstracted into the `Atom`
payload, since every claim about `parse` concerns the paren structure,
not the literal syntax. -/

/-- A classified non-parenthesis token (`number_or_symbol` output). -/
inductive Atom where
  | aint (n : Int)
  | afloat (q : Rat)
  | abool (b : Bool)
  | anil
  | asym (s : String)
deriving DecidableEq

/-- One token of `tokenize` output. -/
inductive Token where
  | lp
  | rp
  | tok (a : Atom)
deriving DecidableEq

/-- The expression a classified token parses to. -/
def atomToExpr : Atom → Expr
  | .aint n => .int n
  | .afloat q => .float q
  | .abool b => .bool b
  | .anil => .nil
  | .asym s => .sym s

/-- An index with a successful `getElem?` is in range. -/
theorem lt_length_of_getElem?_eq_some {α : Type} {l : List α} {i : Nat}
    {a : α} (h : l[i]? = some a) : i < l.length := by
  by_contra hc
  rw [List.getElem?_eq_none (by omega)] at h
  exact Option.noConfusion h

mutual

/-- `parse_expression(index)`: reading past the end is Python
`IndexError` (reachable only when `parse` is called on an empty token
list); a `)` token is a `SchemeSyntaxError`; a `(` token collects
sub-expressions via `parse_list` up to the matching `)`.  The result
is the parsed expression and the next index, certified to advance and
stay within bounds (the certificate is the embedding's termination
measure, not part of the Python value). -/
def parse_expression (tokens : List Token) (index : Nat) :
    Except Err {p : Expr × Nat // index < p.2 ∧ p.2 ≤ tokens.length} :=
  match h : tokens[index]? with
  | Option.none => .error .indexError
  | some Token.lp =>
    match parse_list tokens (index + 1) [] with
    | .error e => .error e
    | .ok ⟨(e, n), hn⟩ => .ok ⟨(e, n), by omega⟩
  | some Token.rp => .error .syntaxError
  | some (Token.tok a) =>
    .ok ⟨(atomToExpr a, index + 1),
         ⟨Nat.lt_succ_self index, lt_length_of_getElem?_eq_some h⟩⟩
termination_by ((tokens.length - index, 0) : Nat × Nat)
decreasing_by
  have hx := lt_length_of_getElem?_eq_some h
  exact Prod.Lex.left _ _ (by omega)

/-- The `while` collection loop of `parse_expression`: stop at `)`
(consuming it), fail with `SchemeSyntaxError` at end of input, else
parse one sub-expression and continue. -/
def parse_list (tokens : List Token) (next : Nat) (acc : List Expr) :
    Except Err {p : Expr × Nat // next < p.2 ∧ p.2 ≤ tokens.length} :=
  match h : tokens[next]? with
  | Option.none => .error .syntaxError
  | some t =>
    if ht : t = Token.rp then
      .ok ⟨(.list acc, next + 1),
           ⟨Nat.lt_succ_self next, lt_length_of_getElem?_eq_some h⟩⟩
    else
      match parse_expression tokens next with
      | .error e => .error e
      | .ok ⟨(_e, n), hn⟩ =>
        match parse_list tokens n (acc ++ [_e]) with
        | .error e2 => .error e2
        | .ok ⟨(e2, n2), hn2⟩ => .ok ⟨(e2, n2), by omega⟩
termination_by ((tokens.length - next, 1) : Nat × Nat)
decreasing_by
  · exact Prod.Lex.right _ (by omega)
  · have hx := lt_length_of_getElem?_eq_some h
    exact Prod.Lex.left _ _ (by omega)

end

/-- `parse`: one expression, then all tokens must have been
consumed. -/
def parse (tokens : List Token) : Except Err Expr :=
  match parse_expression tokens 0 with
  | .error e => .error e
  | .ok ⟨(e, n), _⟩ =>
    if n = tokens.length then .ok e else .error .syntaxError

/-! ### The grammar of well-formed token sequences

Specification-side: a token sequence forms exactly one complete
well-formed expression when it is one classified atom, or a `(`, a
concatenation of well-formed sequences, and the matching `)`. -/

mutual

/-- `Form w e`: the token sequence `w` is one complete well-formed
expression parsing to `e`. -/
inductive Form : List Token → Expr → Prop where
  | atom : ∀ a, Form [Token.tok a] (atomToExpr a)
  | list : ∀ ws es, Forms ws es → Form (Token.lp :: ws ++ [Token.rp]) (.list es)

/-- `Forms ws es`: the token sequence `ws` is a concatenation of
well-formed expressions parsing to `es`. -/
inductive Forms : List Token → List Expr → Prop where
  | nil : Forms [] []
  | cons : ∀ w ws e es, Form w e → Forms ws es → Forms (w ++ ws) (e :: es)

end

/-! ### Environment-chain lemmas -/

/-- `k in m` holds exactly when `m[k]` lookup succeeds. -/
theorem mapHas_eq_isSome (m : List (String × Value)) (k : String) :
    mapHas m k = (mapGet m k).isSome := by
  induction m with
  | nil => rfl
  | cons hd tl ih =>
    obtain ⟨k', v⟩ := hd
    by_cases h : k' = k <;> simp [mapHas, mapGet, h, ih]

/-- In-place dict update touches no other key's presence when the key
is already present. -/
theorem mapHas_mapSet (m : List (String × Value)) (k k' : String) (v : Value) :
    mapHas m k = true → mapHas (mapSet m k v) k' = mapHas m k' := by
  induction m with
  | nil => intro h; exact absurd h (by simp [mapHas])
  | cons hd tl ih =>
    obtain ⟨k₀, v₀⟩ := hd
    intro h
    by_cases h0 : k₀ = k
    · subst h0
      by_cases h1 : k₀ = k' <;> simp [mapSet, mapHas, h1]
    · have htl : mapHas tl k = true := by
        simpa [mapHas, h0] using h
      by_cases h1 : k₀ = k'
      · subst h1
        simp [mapSet, mapHas, h0]
      · simp [mapSet, mapHas, h0, h1, ih htl]

/-- `Frame.get` returns the nearest bound value of the chain, and the
Python `None` object when the chain has no binding. -/
theorem frameGetAux_eq_lookup (fuel : Nat) (fid : Nat) (k : String) (σ : State) :
    frameGetAux fuel fid k σ =
      ((lookupChainAux fuel fid k σ).map (·.2)).getD Value.none := by
  induction fuel generalizing fid with
  | zero => rfl
  | succ f ih =>
    simp only [frameGetAux, lookupChainAux]
    cases hm : mapGet (getFrame σ fid).map k with
    | some v => rfl
    | none =>
      cases hp : (getFrame σ fid).parent with
      | none => rfl
      | some p => exact ih p

/-- `frameGet` against the spec-side chain lookup. -/
theorem frameGet_eq_lookup (fid : Nat) (k : String) (σ : State) :
    frameGet fid k σ = ((lookupChain fid k σ).map (·.2)).getD Value.none :=
  frameGetAux_eq_lookup σ.frames.length fid k σ

/-- A successful chain lookup names a frame that really binds the
key, with the reported value. -/
theorem lookupChainAux_binds (fuel : Nat) (fid : Nat) (k : String) (σ : State)
    (j : Nat) (v : Value) (h : lookupChainAux fuel fid k σ = some (j, v)) :
    mapGet (getFrame σ j).map k = some v := by
  induction fuel generalizing fid with
  | zero => exact Option.noConfusion h
  | succ f ih =>
    simp only [lookupChainAux] at h
    cases hm : mapGet (getFrame σ fid).map k with
    | some v' =>
      rw [hm] at h
      obtain ⟨rfl, rfl⟩ : fid = j ∧ v' = v := by
        simpa using h
      exact hm
    | none =>
      rw [hm] at h
      cases hp : (getFrame σ fid).parent with
      | none => rw [hp] at h; exact Option.noConfusion h
      | some p => rw [hp] at h; exact ih p h

/-- `Frame.update` writes the nearest binding frame of the chain in
place, and does nothing when no frame of the chain binds the key. -/
theorem frameUpdateAux_eq_lookup (fuel : Nat) (fid : Nat) (k : String)
    (v : Value) (σ : State) :
    frameUpdateAux fuel fid k v σ =
      (match (lookupChainAux fuel fid k σ).map (·.1) with
       | some j => setFrame σ j { getFrame σ j with map := mapSet (getFrame σ j).map k v }
       | Option.none => σ) := by
  induction fuel generalizing fid with
  | zero => rfl
  | succ f ih =>
    simp only [frameUpdateAux, lookupChainAux]
    cases hm : mapGet (getFrame σ fid).map k with
    | some v' =>
      have hh : mapHas (getFrame σ fid).map k = true := by
        rw [mapHas_eq_isSome, hm]; rfl
      simp [hh]
    | none =>
      have hh : mapHas (getFrame σ fid).map k = false := by
        rw [mapHas_eq_isSome, hm]; rfl
      cases hp : (getFrame σ fid).parent with
      | none => simp [hh]
      | some p => simp [hh, ih p]

/-- Writing one frame object leaves every other heap slot unchanged. -/
theorem setFrame_getElem_ne (σ : State) (j i : Nat) (fr : Frame)
    (h : i ≠ j) : (setFrame σ j fr).frames[i]? = σ.frames[i]? := by
  simp [setFrame, List.getElem?_set_ne (Ne.symm h)]

/-- `Frame.add` changes only the targeted frame's heap slot. -/
theorem frameAdd_getElem_ne (σ : State) (fid i : Nat) (k : String) (v : Value)
    (h : i ≠ fid) : (frameAdd fid k v σ).frames[i]? = σ.frames[i]? :=
  setFrame_getElem_ne σ fid i _ h

/-! ### Further environment lemmas for the claims -/

/-- Out-of-range heap reads give the empty default frame. -/
theorem getFrame_oob (σ : State) (j : Nat) (h : σ.frames.length ≤ j) :
    getFrame σ j = ⟨[], Option.none⟩ := by
  simp [getFrame, List.getD_eq_getElem?_getD, List.getElem?_eq_none h]

/-- A frame named by a successful chain lookup is a real heap slot. -/
theorem lookupChain_lt_length (fid : Nat) (k : String) (σ : State)
    (j : Nat) (v : Value) (h : lookupChain fid k σ = some (j, v)) :
    j < σ.frames.length := by
  by_contra hc
  have hb := lookupChainAux_binds σ.frames.length fid k σ j v h
  rw [getFrame_oob σ j (by omega)] at hb
  exact Option.noConfusion hb

/-- Reading back the slot just written. -/
theorem getFrame_setFrame_self (σ : State) (j : Nat) (fr : Frame)
    (h : j < σ.frames.length) : getFrame (setFrame σ j fr) j = fr := by
  simp [getFrame, setFrame, List.getD_eq_getElem?_getD, List.getElem?_set_self h]

/-- C10 helper: an unbound name reads back as the `None` sentinel. -/
theorem frameGet_of_lookup_none (fid : Nat) (k : String) (σ : State)
    (h : lookupChain fid k σ = Option.none) : frameGet fid k σ = Value.none := by
  rw [frameGet_eq_lookup, h]
  rfl

/-- C9 helper, specification-side: the element sequence of a proper
list value (`Option.none` when the value is not a proper list). -/
def properList (σ : State) (v : Value) : Option (List Value) :=
  if is_list_helper v σ then some (chainToList (σ.pairs.length + 1) v σ) else Option.none

/-! ### Claim theorems -/

/-- C10: when the name operand of a `set!` form has no binding in any
frame of the chain, evaluation fails with `SchemeNameError`, the value
operand is never evaluated (the result does not depend on `e`, even a
diverging `e`), and the state — every frame included — is returned
unchanged. -/
theorem set_bang_unbound_atomic (f depth : Nat) (s : String) (e : Expr)
    (fid : Nat) (σ : State) (h : lookupChain fid s σ = Option.none) :
    evaluate (f + 1) depth (.list [.sym "set!", .sym s, e]) fid σ =
      (.error .nameError, σ) := by
  have hg : frameGet fid s σ = Value.none := frameGet_of_lookup_none fid s σ h
  have step : evaluate (f + 1) depth (.list [.sym "set!", .sym s, e]) fid σ =
      (if isNone (frameGet fid s σ) then ((.error .nameError, σ) : (Except Err Value) × State)
       else
         match nest f depth e fid σ with
         | (.ok value, σ₁) => (.ok value, frameUpdate fid s value σ₁)
         | err => err) := rfl
  rw [step, hg]
  rfl

/-- C10 witness. -/
theorem set_bang_unbound_atomic_witness :
    lookupChain 0 "y" ⟨[⟨[("a", Value.int 1)], Option.none⟩], []⟩ = Option.none ∧
    evaluate 6 5 (.list [.sym "set!", .sym "y", .int 7]) 0
        ⟨[⟨[("a", Value.int 1)], Option.none⟩], []⟩ =
      (.error .nameError, ⟨[⟨[("a", Value.int 1)], Option.none⟩], []⟩) :=
  ⟨by decide, set_bang_unbound_atomic 5 5 "y" (.int 7) 0 _ (by decide)⟩

/-- C3: (a) a `set!`-style update (`Frame.update`) writes the nearest
frame of the chain that already binds the name, in place, leaving every
other heap slot untouched and creating no new key even in that frame;
(b) when no frame binds the name the update does nothing; (c) `define`
with a symbol name evaluates the value and then binds via `Frame.add`
in the local frame only, every other heap slot untouched; (d) a `set!`
whose lookup succeeds evaluates the value and then applies
`Frame.update`. -/
theorem set_update_nearest_define_local :
    (∀ σ fid k v j w, lookupChain fid k σ = some (j, w) →
       frameUpdate fid k v σ =
         setFrame σ j { getFrame σ j with map := mapSet (getFrame σ j).map k v } ∧
       mapGet (getFrame σ j).map k = some w ∧
       (∀ i, i ≠ j → (frameUpdate fid k v σ).frames[i]? = σ.frames[i]?) ∧
       (∀ k', mapHas (getFrame (frameUpdate fid k v σ) j).map k' =
              mapHas (getFrame σ j).map k')) ∧
    (∀ σ fid k v, lookupChain fid k σ = Option.none → frameUpdate fid k v σ = σ) ∧
    (∀ f depth s valE fid σ,
       evaluate (f + 1) depth (.list [.sym "define", .sym s, valE]) fid σ =
         (match nest f depth valE fid σ with
          | (.ok v, σ₁) => (.ok v, frameAdd fid s v σ₁)
          | err => err)) ∧
    (∀ σ fid k v i, i ≠ fid → (frameAdd fid k v σ).frames[i]? = σ.frames[i]?) ∧
    (∀ f depth s expE fid σ, isNone (frameGet fid s σ) = false →
       evaluate (f + 1) depth (.list [.sym "set!", .sym s, expE]) fid σ =
         (match nest f depth expE fid σ with
          | (.ok v, σ₁) => (.ok v, frameUpdate fid s v σ₁)
          | err => err)) := by
  refine ⟨?_, ?_, ?_, ?_, ?_⟩
  · intro σ fid k v j w h
    have hupd := frameUpdateAux_eq_lookup σ.frames.length fid k v σ
    have hmap : (lookupChainAux σ.frames.length fid k σ).map (·.1) = some j := by
      rw [show lookupChainAux σ.frames.length fid k σ = lookupChain fid k σ from rfl, h]
      rfl
    rw [hmap] at hupd
    have hlt : j < σ.frames.length := lookupChain_lt_length fid k σ j w h
    have hbind := lookupChainAux_binds σ.frames.length fid k σ j w h
    refine ⟨hupd, hbind, ?_, ?_⟩
    · intro i hij
      rw [show frameUpdate fid k v σ = frameUpdateAux σ.frames.length fid k v σ from rfl,
          hupd]
      exact setFrame_getElem_ne σ j i _ hij
    · intro k'
      rw [show frameUpdate fid k v σ = frameUpdateAux σ.frames.length fid k v σ from rfl,
          hupd, getFrame_setFrame_self σ j _ hlt]
      exact mapHas_mapSet (getFrame σ j).map k k' v
        (by rw [mapHas_eq_isSome, hbind]; rfl)
  · intro σ fid k v h
    have hupd := frameUpdateAux_eq_lookup σ.frames.length fid k v σ
    rw [show lookupChainAux σ.frames.length fid k σ = lookupChain fid k σ from rfl, h] at hupd
    exact hupd
  · intro f depth s valE fid σ
    rfl
  · intro σ fid k v i h
    exact frameAdd_getElem_ne σ fid i k v h
  · intro f depth s expE fid σ h
    have step : evaluate (f + 1) depth (.list [.sym "set!", .sym s, expE]) fid σ =
        (if isNone (frameGet fid s σ) then ((.error .nameError, σ) : (Except Err Value) × State)
         else
           match nest f depth expE fid σ with
           | (.ok value, σ₁) => (.ok value, frameUpdate fid s value σ₁)
           | err => err) := rfl
    rw [step, h]
    rfl

/-- C3 witness: chain of two frames both binding `x`; `set!` writes
the local one; `define` writes the local one; an update of a name
bound only in the parent writes the parent. -/
theorem set_update_nearest_define_local_witness :
    lookupChain 1 "x" ⟨[⟨[("x", Value.int 1), ("p", Value.int 9)], Option.none⟩,
                        ⟨[("x", Value.int 2)], some 0⟩], []⟩ = some (1, Value.int 2) ∧
    lookupChain 1 "p" ⟨[⟨[("x", Value.int 1), ("p", Value.int 9)], Option.none⟩,
                        ⟨[("x", Value.int 2)], some 0⟩], []⟩ = some (0, Value.int 9) ∧
    frameUpdate 1 "x" (Value.int 5)
        ⟨[⟨[("x", Value.int 1), ("p", Value.int 9)], Option.none⟩,
          ⟨[("x", Value.int 2)], some 0⟩], []⟩ =
      ⟨[⟨[("x", Value.int 1), ("p", Value.int 9)], Option.none⟩,
        ⟨[("x", Value.int 5)], some 0⟩], []⟩ ∧
    frameUpdate 1 "p" (Value.int 7)
        ⟨[⟨[("x", Value.int 1), ("p", Value.int 9)], Option.none⟩,
          ⟨[("x", Value.int 2)], some 0⟩], []⟩ =
      ⟨[⟨[("x", Value.int 1), ("p", Value.int 7)], Option.none⟩,
        ⟨[("x", Value.int 2)], some 0⟩], []⟩ ∧
    evaluate 6 5 (.list [.sym "define", .sym "x", .int 3]) 1
        ⟨[⟨[("x", Value.int 1), ("p", Value.int 9)], Option.none⟩,
          ⟨[("x", Value.int 2)], some 0⟩], []⟩ =
      (.ok (Value.int 3),
       ⟨[⟨[("x", Value.int 1), ("p", Value.int 9)], Option.none⟩,
         ⟨[("x", Value.int 3)], some 0⟩], []⟩) := by
  refine ⟨by decide, by decide, ?_, ?_, ?_⟩
  · have h := (set_update_nearest_define_local.1
      ⟨[⟨[("x", Value.int 1), ("p", Value.int 9)], Option.none⟩,
        ⟨[("x", Value.int 2)], some 0⟩], []⟩ 1 "x" (Value.int 5) 1 (Value.int 2)
      (by decide)).1
    rw [h]
    decide
  · have h := (set_update_nearest_define_local.1
      ⟨[⟨[("x", Value.int 1), ("p", Value.int 9)], Option.none⟩,
        ⟨[("x", Value.int 2)], some 0⟩], []⟩ 1 "p" (Value.int 7) 0 (Value.int 9)
      (by decide)).1
    rw [h]
    decide
  · have h := set_update_nearest_define_local.2.2.1 5 5 "x" (.int 3) 1
      ⟨[⟨[("x", Value.int 1), ("p", Value.int 9)], Option.none⟩,
        ⟨[("x", Value.int 2)], some 0⟩], []⟩
    rw [h]
    decide

/-- The program `(begin (define x (begin)) x)`: binds `x` to the host
`None` object and then looks `x` up. -/
def beginNoneProg : Expr :=
  .list [.sym "begin", .list [.sym "define", .sym "x", .list [.sym "begin"]], .sym "x"]

/-- C5 counterexample: after `(define x (begin))` the top frame binds
`x` (to the `None` sentinel, a bindable value), yet looking `x` up
fails with `SchemeNameError` — lookup does not return the bound value,
and `NameError` is not limited to unbound names. -/
theorem symbol_lookup_counterexample :
    (evalTop 10 10 beginNoneProg).1 = .error .nameError ∧
    boundValue 1 "x" (evalTop 10 10 beginNoneProg).2 = some Value.none := by
  decide

/-- C5 (amended): evaluating a bare symbol returns the value bound in
the nearest binding frame for every bindable value *other than* the
host `None` sentinel (falsy values such as `#f` and the empty list
included); it fails with `SchemeNameError` when no frame of the chain
binds the name — and also, conflated by the `None`-sentinel check, when
the nearest binding holds the `None` object. -/
theorem symbol_lookup_amended (f depth fid : Nat) (s : String) (σ : State) :
    (∀ v, boundValue fid s σ = some v → isNone v = false →
       evaluate (f + 1) depth (.sym s) fid σ = (.ok v, σ)) ∧
    (boundValue fid s σ = Option.none →
       evaluate (f + 1) depth (.sym s) fid σ = (.error .nameError, σ)) ∧
    (boundValue fid s σ = some Value.none →
       evaluate (f + 1) depth (.sym s) fid σ = (.error .nameError, σ)) := by
  have step : evaluate (f + 1) depth (.sym s) fid σ =
      (if isNone (frameGet fid s σ) then ((.error .nameError, σ) : (Except Err Value) × State)
       else (.ok (frameGet fid s σ), σ)) := rfl
  have hget : frameGet fid s σ = (boundValue fid s σ).getD Value.none :=
    frameGet_eq_lookup fid s σ
  refine ⟨?_, ?_, ?_⟩
  · intro v hv hn
    rw [step, hget, hv]
    simp [Option.getD, hn]
  · intro hv
    rw [step, hget, hv]
    rfl
  · intro hv
    rw [step, hget, hv]
    rfl

/-- C5 witness: `#f` and the empty list read back as themselves (not
as "unbound"); an unbound name is a `NameError`. -/
theorem symbol_lookup_amended_witness :
    evaluate 4 4 (.sym "f") 0 ⟨[⟨[("f", Value.bool false), ("e", Value.nil)], Option.none⟩], []⟩ =
      (.ok (Value.bool false), ⟨[⟨[("f", Value.bool false), ("e", Value.nil)], Option.none⟩], []⟩) ∧
    evaluate 4 4 (.sym "e") 0 ⟨[⟨[("f", Value.bool false), ("e", Value.nil)], Option.none⟩], []⟩ =
      (.ok Value.nil, ⟨[⟨[("f", Value.bool false), ("e", Value.nil)], Option.none⟩], []⟩) ∧
    evaluate 4 4 (.sym "z") 0 ⟨[⟨[("f", Value.bool false), ("e", Value.nil)], Option.none⟩], []⟩ =
      (.error .nameError, ⟨[⟨[("f", Value.bool false), ("e", Value.nil)], Option.none⟩], []⟩) :=
  ⟨(symbol_lookup_amended 3 4 0 "f" _).1 (Value.bool false) (by decide) (by decide),
   (symbol_lookup_amended 3 4 0 "e" _).1 Value.nil (by decide) (by decide),
   (symbol_lookup_amended 3 4 0 "z" _).2.1 (by decide)⟩

/-- C8 counterexample: a zero-operand `begin` does not fail at all —
it evaluates to the host `None` object, not to a
`SchemeEvaluationError`. -/
theorem begin_zero_operands_counterexample :
    (evalTop 5 5 (.list [.sym "begin"])).1 = .ok Value.none ∧
    (Except.ok Value.none : Except Err Value) ≠ .error .evalError := by
  decide

/-- C8 (amended): a zero-operand `begin` returns the host `None`
object with the state unchanged (no error is raised); a `begin` form
dispatches to the operand loop started at `None`; and whenever the
operand sequence evaluates successfully (element results `vs`), the
loop returns the value of the *last* operand (the start value for an
empty sequence), with the same final state — operands are evaluated
left to right by the loop. -/
theorem begin_semantics :
    ((evalTop 5 5 (.list [.sym "begin"])).1 = .ok Value.none) ∧
    (∀ f depth fid σ, evaluate (f + 2) depth (.list [.sym "begin"]) fid σ =
        (.ok Value.none, σ)) ∧
    (∀ f depth es fid σ, evaluate (f + 1) depth (.list (.sym "begin" :: es)) fid σ =
        evalSeq f depth es fid σ Value.none) ∧
    (∀ es f depth fid σ acc vs σ₂, evalElems f depth es fid σ = (.ok vs, σ₂) →
        evalSeq f depth es fid σ acc = (.ok (vs.getLastD acc), σ₂)) := by
  refine ⟨by decide, fun f depth fid σ => rfl, fun f depth es fid σ => rfl, ?_⟩
  intro es
  induction es with
  | nil =>
    intro f depth fid σ acc vs σ₂ h
    match f with
    | 0 => exact absurd h (by simp [evalElems, interp, interpStop])
    | g + 1 =>
      replace h : ((Except.ok [] : Except Err (List Value)), σ) = (.ok vs, σ₂) := h
      have h1 : ([] : List Value) = vs := by injection congrArg Prod.fst h with hh
      have h2 : σ = σ₂ := congrArg Prod.snd h
      subst h1
      subst h2
      rfl
  | cons e rest ih =>
    intro f depth fid σ acc vs σ₂ h
    match f with
    | 0 => exact absurd h (by simp [evalElems, interp, interpStop])
    | g + 1 =>
      replace h : (match nest g depth e fid σ with
           | (.ok v, σ₁) =>
             (match evalElems g depth rest fid σ₁ with
              | (.ok vs', σ₃) => ((.ok (v :: vs'), σ₃) : (Except Err (List Value)) × State)
              | (.error err, σ₃) => (.error err, σ₃))
           | (.error err, σ₁) => (.error err, σ₁)) = (.ok vs, σ₂) := h
      show (match nest g depth e fid σ with
            | (.ok v, σ₁) => evalSeq g depth rest fid σ₁ v
            | err => err) = (.ok (vs.getLastD acc), σ₂)
      cases hn : nest g depth e fid σ with
      | mk r σ₁ =>
        rw [hn] at h
        cases r with
        | error err => exact absurd h (by simp)
        | ok v =>
          replace h : (match evalElems g depth rest fid σ₁ with
              | (.ok vs', σ₃) => ((.ok (v :: vs'), σ₃) : (Except Err (List Value)) × State)
              | (.error err, σ₃) => (.error err, σ₃)) = (.ok vs, σ₂) := h
          show evalSeq g depth rest fid σ₁ v = (.ok (vs.getLastD acc), σ₂)
          cases he : evalElems g depth rest fid σ₁ with
          | mk r2 σ₃ =>
            rw [he] at h
            cases r2 with
            | error err => exact absurd h (by simp)
            | ok vs' =>
              replace h : ((.ok (v :: vs'), σ₃) : (Except Err (List Value)) × State) =
                  (.ok vs, σ₂) := h
              have h1 : v :: vs' = vs := by injection congrArg Prod.fst h with hh
              have h2 : σ₃ = σ₂ := congrArg Prod.snd h
              subst h1
              subst h2
              rw [ih g depth fid σ₁ v vs' σ₃ he, List.getLastD_cons]

/-- C8 witness. -/
theorem begin_semantics_witness :
    evalElems 6 6 [Expr.int 1, Expr.int 2] 1 (newFrame 0 baseState).2 =
      (.ok [Value.int 1, Value.int 2], (newFrame 0 baseState).2) ∧
    evalSeq 6 6 [Expr.int 1, Expr.int 2] 1 (newFrame 0 baseState).2 Value.none =
      (.ok (Value.int 2), (newFrame 0 baseState).2) := by
  refine ⟨by decide, ?_⟩
  have h := begin_semantics.2.2.2 [Expr.int 1, Expr.int 2] 6 6 1
    (newFrame 0 baseState).2 Value.none [Value.int 1, Value.int 2]
    (newFrame 0 baseState).2 (by decide)
  simpa using h

/-! ### Named views of the dispatch branches

Each `eval...Case` names one branch of the `if op == ...` chain of the
dispatch loop verbatim, so that the dispatch can be reasoned about for
a symbolic operator expression. -/

/-- The `define` branch. -/
def evalDefineCase (f depth : Nat) (rest : List Expr) (fid : Nat) (σ : State) :
    (Except Err Value) × State :=
  match rest with
  | [nameE, valE] =>
    match nameE with
    | .list (keyE :: params) =>
      let fn := Value.closure (.list params) valE fid
      match keyE with
      | .sym s => (.ok fn, frameAdd fid s fn σ)
      | .list _ => (.error .typeError, σ)
      | _ => (.ok fn, σ)
    | .list [] => (.error .indexError, σ)
    | .sym s =>
      match nest f depth valE fid σ with
      | (.ok v, σ₁) => (.ok v, frameAdd fid s v σ₁)
      | err => err
    | _ =>
      match nest f depth valE fid σ with
      | (.ok v, σ₁) => (.ok v, σ₁)
      | err => err
  | _ => (.error .evalError, σ)

/-- The `lambda` branch. -/
def evalLambdaCase (rest : List Expr) (fid : Nat) (σ : State) :
    (Except Err Value) × State :=
  match rest with
  | [paramsE, bodyE] => (.ok (.closure paramsE bodyE fid), σ)
  | _ => (.error .evalError, σ)

/-- The `if` branch. -/
def evalIfCase (f depth : Nat) (rest : List Expr) (fid : Nat) (σ : State) :
    (Except Err Value) × State :=
  match rest with
  | [condE, tE, eE] =>
    match nest f depth condE fid σ with
    | (.ok v, σ₁) =>
      if truthy v then nest f depth tE fid σ₁
      else nest f depth eE fid σ₁
    | err => err
  | _ => (.error .evalError, σ)

/-- The `del` branch. -/
def evalDelCase (rest : List Expr) (fid : Nat) (σ : State) :
    (Except Err Value) × State :=
  match rest with
  | [keyE] =>
    match keyE with
    | .sym s =>
      let fr := getFrame σ fid
      if mapHas fr.map s then
        (.ok ((mapGet fr.map s).getD Value.none),
         setFrame σ fid { fr with map := mapDel fr.map s })
      else (.error .nameError, σ)
    | .list _ => (.error .typeError, σ)
    | _ => (.error .nameError, σ)
  | _ => (.error .evalError, σ)

/-- The `let` branch. -/
def evalLetCase (f depth : Nat) (rest : List Expr) (fid : Nat) (σ : State) :
    (Except Err Value) × State :=
  match rest with
  | [bindsE, bodyE] =>
    let (inner, σ₁) := newFrame fid σ
    match bindsE with
    | .list items => evalLetLoop f depth items fid inner σ₁ bodyE
    | .sym s =>
      if s.isEmpty then nest f depth bodyE inner σ₁
      else (.error .evalError, σ₁)
    | _ => (.error .typeError, σ₁)
  | _ => (.error .evalError, σ)

/-- The `set!` branch. -/
def evalSetCase (f depth : Nat) (rest : List Expr) (fid : Nat) (σ : State) :
    (Except Err Value) × State :=
  match rest with
  | [varE, expE] =>
    match varE with
    | .sym s =>
      let v := frameGet fid s σ
      if isNone v then (.error .nameError, σ)
      else
        match nest f depth expE fid σ with
        | (.ok value, σ₁) => (.ok value, frameUpdate fid s value σ₁)
        | err => err
    | .list _ => (.error .typeError, σ)
    | _ => (.error .nameError, σ)
  | _ => (.error .evalError, σ)

/-- The application branch: evaluate every element of the list, then
apply the first result. -/
def evalApplyCase (f depth : Nat) (es : List Expr) (fid : Nat) (σ : State) :
    (Except Err Value) × State :=
  match evalElems f depth es fid σ with
  | (.ok vs, σ₁) =>
    match vs with
    | func :: exps =>
      match func with
      | .closure ps body cfid =>
        match mkFrame ps exps (some cfid) σ₁ with
        | .ok (nfid, σ₂) => evaluate f depth body nfid σ₂
        | .error e => (.error e, σ₁)
      | .builtin b => applyBuiltin b exps σ₁
      | _ => (.error .evalError, σ₁)
    | [] => (.error .evalError, σ₁)
  | (.error err, σ₁) => (.error err, σ₁)

/-- The dispatch chain of the loop on a nonempty list expression, one
test per special form in source order, in terms of the named branch
views. -/
theorem evaluate_list_dispatch (f depth : Nat) (op : Expr) (rest : List Expr)
    (fid : Nat) (σ : State) :
    evaluate (f + 1) depth (.list (op :: rest)) fid σ =
      (if op = Expr.sym "define" then evalDefineCase f depth rest fid σ
       else if op = Expr.sym "lambda" then evalLambdaCase rest fid σ
       else if op = Expr.sym "if" then evalIfCase f depth rest fid σ
       else if op = Expr.sym "and" then evalAnd f depth rest fid σ
       else if op = Expr.sym "or" then evalOr f depth rest fid σ
       else if op = Expr.sym "begin" then evalSeq f depth rest fid σ Value.none
       else if op = Expr.sym "del" then evalDelCase rest fid σ
       else if op = Expr.sym "let" then evalLetCase f depth rest fid σ
       else if op = Expr.sym "set!" then evalSetCase f depth rest fid σ
       else evalApplyCase f depth (op :: rest) fid σ) := rfl

/-- Reading the slot just appended to the frame heap. -/
theorem getFrame_append_self (σ : State) (fr : Frame) :
    getFrame { σ with frames := σ.frames ++ [fr] } σ.frames.length = fr := by
  simp [getFrame, List.getD_eq_getElem?_getD]

/-- Appending a frame leaves all existing slots unchanged. -/
theorem frames_append_getElem (σ : State) (fr : Frame) (j : Nat)
    (hj : j < σ.frames.length) : (σ.frames ++ [fr])[j]? = σ.frames[j]? := by
  rw [List.getElem?_append]
  simp [hj]

/-- C2: the application case of the dispatch loop.  When the head of a
non-special-form list evaluates (with its operands, left to right) to a
`Closure` followed by argument values: the loop does not recurse but
continues at the same host stack depth with the closure body and a new
frame built by `Frame.__init__`; for a parameter list, that
construction fails with `SchemeEvaluationError` exactly when the
parameter and argument counts differ, and on success the new frame is
a fresh heap slot whose parent is the closure's *captured* frame
(`cfid`) — the caller's frame `fid` appears nowhere — holding exactly
the parameter bindings; all previously existing heap slots are
untouched by the construction. -/
theorem closure_application (f depth : Nat) (op : Expr) (erest : List Expr)
    (fid : Nat) (σ σ₁ : State) (peE bodyE : Expr) (cfid : Nat)
    (args : List Value) (hspec : isSpecialForm op = false)
    (h : evalElems f depth (op :: erest) fid σ =
      (.ok (.closure peE bodyE cfid :: args), σ₁)) :
    (evaluate (f + 1) depth (.list (op :: erest)) fid σ =
       (match mkFrame peE args (some cfid) σ₁ with
        | .ok (nfid, σ₂) => evaluate f depth bodyE nfid σ₂
        | .error e => (.error e, σ₁))) ∧
    (∀ ps, peE = .list ps →
       ((mkFrame peE args (some cfid) σ₁ = .error .evalError) ↔
         ps.length ≠ args.length)) ∧
    (∀ ps, peE = .list ps → ps.length = args.length →
       mkFrame peE args (some cfid) σ₁ =
         .ok (σ₁.frames.length,
              { σ₁ with frames := σ₁.frames ++ [⟨bindParams ps args, some cfid⟩] })) ∧
    (∀ nfid σ₂, mkFrame peE args (some cfid) σ₁ = .ok (nfid, σ₂) →
       nfid = σ₁.frames.length ∧
       (∀ ps, paramList peE = .ok ps →
          getFrame σ₂ nfid = ⟨bindParams ps args, some cfid⟩) ∧
       (∀ j, j < σ₁.frames.length → σ₂.frames[j]? = σ₁.frames[j]?)) := by
  have h1 : op ≠ Expr.sym "define" := fun hh => by subst hh; simp [isSpecialForm] at hspec
  have h2 : op ≠ Expr.sym "lambda" := fun hh => by subst hh; simp [isSpecialForm] at hspec
  have h3 : op ≠ Expr.sym "if" := fun hh => by subst hh; simp [isSpecialForm] at hspec
  have h4 : op ≠ Expr.sym "and" := fun hh => by subst hh; simp [isSpecialForm] at hspec
  have h5 : op ≠ Expr.sym "or" := fun hh => by subst hh; simp [isSpecialForm] at hspec
  have h6 : op ≠ Expr.sym "begin" := fun hh => by subst hh; simp [isSpecialForm] at hspec
  have h7 : op ≠ Expr.sym "del" := fun hh => by subst hh; simp [isSpecialForm] at hspec
  have h8 : op ≠ Expr.sym "let" := fun hh => by subst hh; simp [isSpecialForm] at hspec
  have h9 : op ≠ Expr.sym "set!" := fun hh => by subst hh; simp [isSpecialForm] at hspec
  refine ⟨?_, ?_, ?_, ?_⟩
  · rw [evaluate_list_dispatch, if_neg h1, if_neg h2, if_neg h3, if_neg h4,
        if_neg h5, if_neg h6, if_neg h7, if_neg h8, if_neg h9]
    rw [show evalApplyCase f depth (op :: erest) fid σ =
          (match evalElems f depth (op :: erest) fid σ with
           | (.ok vs, σ₁) =>
             match vs with
             | func :: exps =>
               match func with
               | .closure ps body cfid =>
                 (match mkFrame ps exps (some cfid) σ₁ with
                  | .ok (nfid, σ₂) => evaluate f depth body nfid σ₂
                  | .error e => ((.error e, σ₁) : (Except Err Value) × State))
               | .builtin b => applyBuiltin b exps σ₁
               | _ => (.error .evalError, σ₁)
             | [] => (.error .evalError, σ₁)
           | (.error err, σ₁) => (.error err, σ₁)) from rfl, h]
  · intro ps hps
    subst hps
    have hform : mkFrame (.list ps) args (some cfid) σ₁ =
        (if ps.length ≠ args.length then .error .evalError
         else .ok (σ₁.frames.length,
           { σ₁ with frames := σ₁.frames ++ [⟨bindParams ps args, some cfid⟩] })) := by
      simp [mkFrame, paramList]
    by_cases hlen : ps.length = args.length
    · rw [hform, if_neg (by omega)]
      simp [hlen]
    · rw [hform, if_pos hlen]
      simp [hlen]
  · intro ps hps hlen
    subst hps
    simp [mkFrame, paramList, hlen]
  · intro nfid σ₂ hmk
    cases hps : paramList peE with
    | error e =>
      rw [show mkFrame peE args (some cfid) σ₁ = .error e from by
            simp [mkFrame, hps]] at hmk
      exact Except.noConfusion hmk
    | ok ps =>
      by_cases hlen : ps.length = args.length
      · have hform : mkFrame peE args (some cfid) σ₁ =
            .ok (σ₁.frames.length,
                 { σ₁ with frames := σ₁.frames ++ [⟨bindParams ps args, some cfid⟩] }) := by
          simp [mkFrame, hps, hlen]
        rw [hform] at hmk
        have hpair : (σ₁.frames.length,
            ({ σ₁ with frames := σ₁.frames ++ [⟨bindParams ps args, some cfid⟩] } : State)) =
            (nfid, σ₂) := by
          injection hmk
        have hfid : nfid = σ₁.frames.length := (congrArg Prod.fst hpair).symm
        have hst : σ₂ = { σ₁ with frames := σ₁.frames ++ [⟨bindParams ps args, some cfid⟩] } :=
          (congrArg Prod.snd hpair).symm
        subst hfid
        subst hst
        refine ⟨rfl, ?_, ?_⟩
        · intro ps' hps'
          have : ps' = ps := by
            injection hps' with hh
            exact hh.symm
          subst this
          exact getFrame_append_self σ₁ _
        · intro j hj
          exact frames_append_getElem σ₁ _ j hj
      · rw [show mkFrame peE args (some cfid) σ₁ = .error .evalError from by
            simp [mkFrame, hps, hlen]] at hmk
        exact Except.noConfusion hmk

/-- A two-frame heap for the C2 witness: the root frame binds `y` to
`7` and is captured by the closure bound to `f` in the caller frame,
which binds its own `y` to `99`. -/
def lexEnv : State :=
  ⟨[⟨[("y", Value.int 7)], Option.none⟩,
    ⟨[("y", Value.int 99),
      ("f", Value.closure (.list [.sym "x"]) (.sym "y") 0)], some 0⟩], []⟩

/-- C2 witness: applying `f` from the caller frame continues with the
closure body in a frame whose parent is the *captured* frame, so the
free `y` resolves to `7`, not to the caller's `99`. -/
theorem closure_application_witness :
    isSpecialForm (.sym "f") = false ∧
    evalElems 4 4 [Expr.sym "f", Expr.int 1] 1 lexEnv =
      (.ok [Value.closure (.list [.sym "x"]) (.sym "y") 0, Value.int 1], lexEnv) ∧
    evaluate 5 4 (.list [Expr.sym "f", Expr.int 1]) 1 lexEnv =
      (match mkFrame (.list [.sym "x"]) [Value.int 1] (some 0) lexEnv with
       | .ok (nfid, σ₂) => evaluate 4 4 (.sym "y") nfid σ₂
       | .error e => (.error e, lexEnv)) ∧
    (evaluate 5 4 (.list [Expr.sym "f", Expr.int 1]) 1 lexEnv).1 = .ok (Value.int 7) ∧
    (evaluate 8 8 (.list [Expr.sym "f", Expr.int 1, Expr.int 2]) 1 lexEnv).1 =
      .error .evalError :=
  ⟨by decide, by decide,
   (closure_application 4 4 (.sym "f") [.int 1] 1 lexEnv lexEnv
      (.list [.sym "x"]) (.sym "y") 0 [Value.int 1] (by decide) (by decide)).1,
   by decide, by decide⟩

/-- C7: the `let` form with a binding list and a body (i) allocates
one fresh child frame and runs the binding loop with the *outer* frame
for initializers and the child for bindings; (ii) the fresh child is a
new heap slot whose parent is the outer frame, its allocation leaving
every existing slot unchanged; (iii) each well-formed binding item
evaluates its initializer by a nested call *in the outer frame* (so no
initializer can see the bindings of the same `let`) and installs the
binding into the child; (iv) after the items, the body is evaluated in
the child frame; (v) installing a binding changes no frame other than
the child; (vi) concretely, an inner `let` whose second initializer
mentions `x` sees the outer `x = 1`, not the `x = 2` bound by the same
`let`. -/
theorem let_semantics :
    (∀ f depth items bodyE fid σ,
       evaluate (f + 1) depth (.list [.sym "let", .list items, bodyE]) fid σ =
         evalLetLoop f depth items fid (newFrame fid σ).1 (newFrame fid σ).2 bodyE) ∧
    (∀ fid σ, (newFrame fid σ).1 = σ.frames.length ∧
       getFrame (newFrame fid σ).2 ((newFrame fid σ).1) = ⟨[], some fid⟩ ∧
       (∀ j, j < σ.frames.length → ((newFrame fid σ).2).frames[j]? = σ.frames[j]?)) ∧
    (∀ f depth nm initE rest outer inner σ bodyE,
       evalLetLoop (f + 1) depth (.list [.sym nm, initE] :: rest) outer inner σ bodyE =
         (match nest f depth initE outer σ with
          | (.ok v, σ₁) => evalLetLoop f depth rest outer inner (frameAdd inner nm v σ₁) bodyE
          | err => err)) ∧
    (∀ f depth outer inner σ bodyE,
       evalLetLoop (f + 1) depth [] outer inner σ bodyE = nest f depth bodyE inner σ) ∧
    (∀ σ inner k v i, i ≠ inner → (frameAdd inner k v σ).frames[i]? = σ.frames[i]?) ∧
    ((evalTop 20 20 (.list [.sym "let", .list [.list [.sym "x", .int 1]],
        .list [.sym "let", .list [.list [.sym "x", .int 2], .list [.sym "y", .sym "x"]],
               .sym "y"]])).1 = .ok (Value.int 1)) := by
  refine ⟨fun f depth items bodyE fid σ => rfl, ?_, fun f depth nm initE rest outer inner σ bodyE => rfl,
          fun f depth outer inner σ bodyE => rfl, ?_, by decide⟩
  · intro fid σ
    refine ⟨rfl, getFrame_append_self σ ⟨[], some fid⟩, ?_⟩
    intro j hj
    exact frames_append_getElem σ ⟨[], some fid⟩ j hj
  · intro σ inner k v i h
    exact frameAdd_getElem_ne σ inner i k v h

/-- C7 witness. -/
theorem let_semantics_witness :
    getFrame (newFrame 1 (newFrame 0 baseState).2).2 2 = ⟨[], some 1⟩ ∧
    ((newFrame 1 (newFrame 0 baseState).2).2).frames[0]? =
      ((newFrame 0 baseState).2).frames[0]? ∧
    (frameAdd 1 "q" (Value.int 3) (newFrame 0 baseState).2).frames[0]? =
      ((newFrame 0 baseState).2).frames[0]? :=
  ⟨(let_semantics.2.1 1 (newFrame 0 baseState).2).2.1,
   (let_semantics.2.1 1 (newFrame 0 baseState).2).2.2 0 (by decide),
   let_semantics.2.2.2.2.1 (newFrame 0 baseState).2 1 "q" (Value.int 3) 0 (by decide)⟩

/-- The spec's tail-recursive countdown
`(define (loop n) (if (equal? n 0) 0 (loop (- n 1))))`. -/
def loopDef : Expr :=
  .list [.sym "define", .list [.sym "loop", .sym "n"],
    .list [.sym "if", .list [.sym "equal?", .sym "n", .int 0], .int 0,
      .list [.sym "loop", .list [.sym "-", .sym "n", .int 1]]]]

/-- `(begin <loopDef> (loop n))`. -/
def loopProg (n : Int) : Expr :=
  .list [.sym "begin", loopDef, .list [.sym "loop", .int n]]

/-- `(begin (define (f) (f)) (f))`: an unconditional self-application,
whose recursive call goes through the iterative replacement step
only. -/
def spinProg : Expr :=
  .list [.sym "begin", .list [.sym "define", .list [.sym "f"], .list [.sym "f"]],
         .list [.sym "f"]]

set_option maxRecDepth 100000 in
/-- C1: the dispatch loop's host stack usage grows with the recursion
depth of the spec's own tail-recursive countdown: at host stack budget
12 the countdown completes for `n = 4` but aborts with the host's
`RecursionError` for `n = 40` (at a larger stack budget the same call
completes, so the failure is stack exhaustion, not a semantic error) —
because the taken `if` branch is evaluated by a *nested* call.  Only
the closure-application step itself is iterative: an unbounded chain
of direct self-applications runs at a tiny fixed stack budget without
ever overflowing (it exhausts the artificial step budget instead). -/
theorem tail_call_stack_growth :
    (evalTop 300 12 (loopProg 4)).1 = .ok (.int 0) ∧
    (evalTop 300 12 (loopProg 40)).1 = .error .stackOverflow ∧
    (evalTop 300 50 (loopProg 40)).1 = .ok (.int 0) ∧
    (evalTop 300 3 spinProg).1 = .error .outOfGas := by
  exact ⟨by decide, by decide, by decide, by decide⟩

/-- Is the value a `Pair` object? -/
def isPair : Value → Bool
  | .pair _ => true
  | _ => false

/-- C6 counterexample: `(-)` with zero arguments fails with the host's
`IndexError` (from `args[0]`), not with a `SchemeEvaluationError`. -/
theorem minus_zero_args_counterexample :
    (evalTop 10 10 (.list [.sym "-"])).1 = .error .indexError ∧
    Err.indexError ≠ Err.evalError := by
  decide

/-- The collection loop of `append_func` fails as soon as any argument
is not a proper list. -/
theorem appendCollect_mem_error (args : List Value) (σ : State) (v : Value)
    (hv : v ∈ args) (hl : is_list_helper v σ = false) :
    appendCollect args σ = .error .evalError := by
  induction args with
  | nil => exact absurd hv (List.not_mem_nil v)
  | cons a rest ih =>
    rcases List.mem_cons.mp hv with h | h
    · subst h
      simp [appendCollect, hl]
    · by_cases ha : is_list_helper a σ = true
      · simp [appendCollect, ha, ih h]
      · have ha' : is_list_helper a σ = false := by simpa using ha
        simp [appendCollect, ha']

/-- C6 (amended): every arity or pair/list-kind check the builtin
library performs fails with `SchemeEvaluationError`: `/` with zero
arguments; the chained comparisons (`>`, `<`, `>=`, `<=`, `equal?`)
with fewer than two arguments; `not` with other than one argument;
`cons` with other than two; `car`/`cdr` with other than one argument
or a non-`Pair` argument; `list?`/`length` with other than one
argument; `length` on a non-list; `list-ref` with other than two
arguments; `append` with any non-list argument.  However `-` with zero
arguments fails with the host `IndexError` instead, and the arithmetic
primitives validate no argument kinds themselves — a non-numeric
argument surfaces as a host `TypeError`. -/
theorem builtin_contract_errors :
    (div [] = .error .evalError) ∧
    (∀ (args : List Value) cmp, args.length ≤ 1 → op_helper args cmp = .error .evalError) ∧
    (∀ (args : List Value), args.length ≤ 1 →
       gt args = .error .evalError ∧ lt args = .error .evalError ∧
       ge args = .error .evalError ∧ le args = .error .evalError ∧
       equal args = .error .evalError) ∧
    (∀ (args : List Value), args.length ≠ 1 → not_func args = .error .evalError) ∧
    (∀ (args : List Value) σ, args.length ≠ 2 → cons_func args σ = .error .evalError) ∧
    (∀ (args : List Value) σ, args.length ≠ 1 → car_func args σ = .error .evalError) ∧
    (∀ v σ, isPair v = false → car_func [v] σ = .error .evalError) ∧
    (∀ (args : List Value) σ, args.length ≠ 1 → cdr_func args σ = .error .evalError) ∧
    (∀ v σ, isPair v = false → cdr_func [v] σ = .error .evalError) ∧
    (∀ (args : List Value) σ, args.length ≠ 1 → is_list_func args σ = .error .evalError) ∧
    (∀ (args : List Value) σ, args.length ≠ 1 → length_func args σ = .error .evalError) ∧
    (∀ v σ, is_list_helper v σ = false → length_func [v] σ = .error .evalError) ∧
    (∀ (args : List Value) σ, args.length ≠ 2 → list_ref_func args σ = .error .evalError) ∧
    (∀ (args : List Value) σ v, v ∈ args → is_list_helper v σ = false →
       append_func args σ = .error .evalError) ∧
    (subLambda [] = .error .indexError) ∧
    (sumB [Value.nil] = .error .typeError) := by
  refine ⟨rfl, ?_, ?_, ?_, ?_, ?_, ?_, ?_, ?_, ?_, ?_, ?_, ?_, ?_, rfl, rfl⟩
  · intro args cmp h
    match args with
    | [] => rfl
    | [a] => rfl
    | a :: b :: t => simp at h
  · intro args h
    match args with
    | [] => exact ⟨rfl, rfl, rfl, rfl, rfl⟩
    | [a] => exact ⟨rfl, rfl, rfl, rfl, rfl⟩
    | a :: b :: t => simp at h
  · intro args h
    match args with
    | [] => rfl
    | [a] => exact absurd rfl h
    | a :: b :: t => rfl
  · intro args σ h
    match args with
    | [] => rfl
    | [a] => rfl
    | [a, b] => exact absurd rfl h
    | a :: b :: c :: t => rfl
  · intro args σ h
    match args with
    | [] => rfl
    | [a] => exact absurd rfl h
    | a :: b :: t => rfl
  · intro v σ h
    match v, h with
    | .int n, _ => rfl
    | .float q, _ => rfl
    | .bool b, _ => rfl
    | .nil, _ => rfl
    | .closure p b fid, _ => rfl
    | .builtin b, _ => rfl
    | .none, _ => rfl
  · intro args σ h
    match args with
    | [] => rfl
    | [a] => exact absurd rfl h
    | a :: b :: t => rfl
  · intro v σ h
    match v, h with
    | .int n, _ => rfl
    | .float q, _ => rfl
    | .bool b, _ => rfl
    | .nil, _ => rfl
    | .closure p b fid, _ => rfl
    | .builtin b, _ => rfl
    | .none, _ => rfl
  · intro args σ h
    match args with
    | [] => rfl
    | [a] => exact absurd rfl h
    | a :: b :: t => rfl
  · intro args σ h
    match args with
    | [] => rfl
    | [a] => exact absurd rfl h
    | a :: b :: t => rfl
  · intro v σ h
    simp [length_func, h]
  · intro args σ h
    match args with
    | [] => rfl
    | [a] => rfl
    | [a, b] => exact absurd rfl h
    | a :: b :: c :: t => rfl
  · intro args σ v hv hl
    have hc := appendCollect_mem_error args σ v hv hl
    match args, hv with
    | a :: rest, _ =>
      simp only [append_func]
      rw [hc]


/-- C6 witness. -/
theorem builtin_contract_errors_witness :
    gt [Value.int 1] = .error .evalError ∧
    equal [] = .error .evalError ∧
    not_func [] = .error .evalError ∧
    car_func [Value.int 5] baseState = .error .evalError ∧
    cdr_func [Value.nil] baseState = .error .evalError ∧
    cons_func [Value.int 1] baseState = .error .evalError ∧
    length_func [Value.int 5] baseState = .error .evalError ∧
    list_ref_func [Value.int 5] baseState = .error .evalError ∧
    append_func [Value.int 5] baseState = .error .evalError :=
  ⟨(builtin_contract_errors.2.2.1 [Value.int 1] (by decide)).1,
   (builtin_contract_errors.2.2.1 [] (by decide)).2.2.2.2,
   builtin_contract_errors.2.2.2.1 [] (by decide),
   builtin_contract_errors.2.2.2.2.2.2.1 (Value.int 5) baseState (by decide),
   builtin_contract_errors.2.2.2.2.2.2.2.2.1 Value.nil baseState (by decide),
   builtin_contract_errors.2.2.2.2.1 [Value.int 1] baseState (by decide),
   builtin_contract_errors.2.2.2.2.2.2.2.2.2.2.2.1 (Value.int 5) baseState (by decide),
   builtin_contract_errors.2.2.2.2.2.2.2.2.2.2.2.2.1 [Value.int 5] baseState (by decide),
   builtin_contract_errors.2.2.2.2.2.2.2.2.2.2.2.2.2.1 [Value.int 5] baseState
     (Value.int 5) (by decide) (by decide)⟩

/-- `(append (list 1 2) (list 3 4))`. -/
def appendListProg : Expr :=
  .list [.sym "append", .list [.sym "list", .int 1, .int 2],
         .list [.sym "list", .int 3, .int 4]]

/-- `(list 1 2 3 4)`. -/
def listFourProg : Expr := .list [.sym "list", .int 1, .int 2, .int 3, .int 4]

/-- `(equal? (append (list 1 2) (list 3 4)) (list 1 2 3 4))`. -/
def eqAppendProg : Expr := .list [.sym "equal?", appendListProg, listFourProg]

/-- Does the result hold a proper list with exactly these elements? -/
def resultIsProperList (r : (Except Err Value) × State) (expected : List Value) : Bool :=
  match r with
  | (.ok v, σ) => decide (properList σ v = some expected)
  | _ => false

/-- C9 counterexample: `(equal? (append (list 1 2) (list 3 4))
(list 1 2 3 4))` evaluates to `#f`, not `#t`: `Pair` defines no
`__eq__`, so `equal?` compares the two freshly allocated chains by
object identity. -/
theorem append_equal_counterexample :
    (evalTop 30 30 eqAppendProg).1 = .ok (.bool false) ∧
    (Except.ok (Value.bool false) : Except Err Value) ≠ .ok (.bool true) := by
  decide

/-- C9 (amended): `(append (list 1 2) (list 3 4))` does produce a
proper list whose element sequence is exactly that of
`(list 1 2 3 4)` — the two results are structurally equal — but the
`equal?` comparison of the two evaluates to `#f`, because the pairs
are distinct objects and `Pair` equality is identity-based. -/
theorem append_structural_equal :
    resultIsProperList (evalTop 30 30 appendListProg)
      [Value.int 1, Value.int 2, Value.int 3, Value.int 4] = true ∧
    resultIsProperList (evalTop 30 30 listFourProg)
      [Value.int 1, Value.int 2, Value.int 3, Value.int 4] = true ∧
    (evalTop 30 30 eqAppendProg).1 = .ok (.bool false) := by
  exact ⟨by decide, by decide, by decide⟩

/-! ### Parser correctness -/

/-- `parse_expression` without the certificate. -/
def parseExpR (tokens : List Token) (i : Nat) : Except Err (Expr × Nat) :=
  (parse_expression tokens i).map Subtype.val

/-- `parse_list` without the certificate. -/
def parseListR (tokens : List Token) (n : Nat) (acc : List Expr) :
    Except Err (Expr × Nat) :=
  (parse_list tokens n acc).map Subtype.val

/-- The tokens from index `i` (inclusive) to `j` (exclusive). -/
def slice (t : List Token) (i j : Nat) : List Token :=
  (t.drop i).take (j - i)

/-- An empty slice. -/
theorem slice_self (t : List Token) (i : Nat) : slice t i i = [] := by
  simp [slice]

/-- The whole list as a slice. -/
theorem slice_all (t : List Token) : slice t 0 t.length = t := by
  simp [slice]

/-- Slices concatenate at an interior index. -/
theorem slice_split (t : List Token) (i m j : Nat) (h1 : i ≤ m) (h2 : m ≤ j) :
    slice t i j = slice t i m ++ slice t m j := by
  unfold slice
  rw [show j - i = (m - i) + (j - m) from by omega, List.take_add, List.drop_drop,
    show i + (m - i) = m from by omega]

/-- A one-token slice. -/
theorem slice_one (t : List Token) (i : Nat) (a : Token) (h : t[i]? = some a) :
    slice t i (i + 1) = [a] := by
  have hlt : i < t.length := lt_length_of_getElem?_eq_some h
  have hdrop : t.drop i = t[i] :: t.drop (i + 1) := List.drop_eq_getElem_cons hlt
  have hv : t[i] = a := by
    have := List.getElem?_eq_getElem hlt
    rw [h] at this
    injection this with hh
    exact hh.symm
  simp [slice, hdrop, hv]

/-- Reading an appended list at an offset past the prefix. -/
theorem getElem?_append_offset {α : Type} (pre rest : List α) (k : Nat) :
    (pre ++ rest)[pre.length + k]? = rest[k]? := by
  rw [List.getElem?_append]
  rw [if_neg (by omega)]
  congr 1
  omega

/-- A well-formed expression's token sequence starts with a
non-`)` token. -/
theorem form_head (w : List Token) (e : Expr) (h : Form w e) :
    ∃ hd tl, w = hd :: tl ∧ hd ≠ Token.rp := by
  cases h with
  | atom a => exact ⟨Token.tok a, [], rfl, fun hh => Token.noConfusion hh⟩
  | list ws es hws => exact ⟨Token.lp, ws ++ [Token.rp], rfl, fun hh => Token.noConfusion hh⟩

/-- Inverting `Except.map` on a success. -/
theorem except_map_ok {ε α β : Type} (f : α → β) (x : Except ε α) (y : β)
    (h : x.map f = .ok y) : ∃ a, x = .ok a ∧ f a = y := by
  cases x with
  | ok a =>
    refine ⟨a, rfl, ?_⟩
    injection h with hh
  | error e => exact Except.noConfusion h

mutual

/-- Within bounds, a failing `parse_expression` fails with a syntax
error (the host `IndexError` needs an out-of-range start index). -/
theorem parse_expression_error_kind (tokens : List Token) (index : Nat)
    (hidx : index < tokens.length) (err : Err)
    (he : parse_expression tokens index = .error err) : err = .syntaxError := by
  unfold parse_expression at he
  split at he
  · rename_i h
    have hg : tokens[index]? = some tokens[index] := List.getElem?_eq_getElem hidx
    rw [h] at hg
    exact Option.noConfusion hg
  · rename_i h
    split at he
    · rename_i e h2
      injection he with hh
      exact hh ▸ parse_list_error_kind tokens (index + 1) [] e h2
    · exact Except.noConfusion he
  · injection he with hh
    exact hh.symm
  · exact Except.noConfusion he
termination_by ((tokens.length - index, 0) : Nat × Nat)
decreasing_by
  exact Prod.Lex.left _ _ (by omega)

/-- A failing `parse_list` fails with a syntax error. -/
theorem parse_list_error_kind (tokens : List Token) (next : Nat)
    (acc : List Expr) (err : Err)
    (he : parse_list tokens next acc = .error err) : err = .syntaxError := by
  unfold parse_list at he
  split at he
  · injection he with hh
    exact hh.symm
  · rename_i t h
    have hnext : next < tokens.length := lt_length_of_getElem?_eq_some h
    split at he
    · exact Except.noConfusion he
    · split at he
      · rename_i e h2
        injection he with hh
        exact hh ▸ parse_expression_error_kind tokens next hnext e h2
      · rename_i _e n hn h2
        split at he
        · rename_i e2 h3
          injection he with hh
          exact hh ▸ parse_list_error_kind tokens n (acc ++ [_e]) e2 h3
        · exact Except.noConfusion he
termination_by ((tokens.length - next, 1) : Nat × Nat)
decreasing_by
  · exact Prod.Lex.right _ (by omega)
  · exact Prod.Lex.left _ _ (by omega)

end

mutual

/-- A successful `parse_expression` read a well-formed expression:
the consumed token slice derives exactly the returned expression. -/
theorem parse_expression_sound (tokens : List Token) (index : Nat)
    (p : {p : Expr × Nat // index < p.2 ∧ p.2 ≤ tokens.length})
    (hp : parse_expression tokens index = .ok p) :
    Form (slice tokens index p.val.2) p.val.1 := by
  unfold parse_expression at hp
  split at hp
  · exact Except.noConfusion hp
  · rename_i h
    split at hp
    · exact Except.noConfusion hp
    · rename_i e n hn h2
      injection hp with hh
      subst hh
      show Form (slice tokens index n) e
      have hRec := parse_list_sound tokens (index + 1) [] ⟨(e, n), hn⟩ h2
      obtain ⟨es, he1, hforms, hrp, hle⟩ := hRec
      have he1' : e = Expr.list es := by simpa using he1
      have hs1 : slice tokens index n =
          slice tokens index (index + 1) ++ slice tokens (index + 1) n :=
        slice_split _ _ _ _ (by omega) (by omega)
      have hs2 : slice tokens (index + 1) n =
          slice tokens (index + 1) (n - 1) ++ slice tokens (n - 1) n := by
        refine slice_split _ _ _ _ ?_ ?_
        · exact hle
        · omega
      have hs3 : slice tokens index (index + 1) = [Token.lp] :=
        slice_one _ _ _ h
      have hs4 : slice tokens (n - 1) n = [Token.rp] := by
        have hx := slice_one tokens (n - 1) Token.rp (by simpa using hrp)
        rw [show n - 1 + 1 = n from by omega] at hx
        exact hx
      rw [he1', hs1, hs3, hs2, hs4]
      exact Form.list _ es (by simpa using hforms)
  · exact Except.noConfusion hp
  · rename_i a h
    injection hp with hh
    subst hh
    show Form (slice tokens index (index + 1)) (atomToExpr a)
    rw [slice_one _ _ _ h]
    exact Form.atom a
termination_by ((tokens.length - index, 0) : Nat × Nat)
decreasing_by
  exact Prod.Lex.left _ _ (by omega)

/-- A successful `parse_list` read a concatenation of well-formed
expressions followed by the closing `)`. -/
theorem parse_list_sound (tokens : List Token) (next : Nat) (acc : List Expr)
    (p : {p : Expr × Nat // next < p.2 ∧ p.2 ≤ tokens.length})
    (hp : parse_list tokens next acc = .ok p) :
    ∃ es, p.val.1 = .list (acc ++ es) ∧
      Forms (slice tokens next (p.val.2 - 1)) es ∧
      tokens[p.val.2 - 1]? = some Token.rp ∧ next ≤ p.val.2 - 1 := by
  unfold parse_list at hp
  split at hp
  · exact Except.noConfusion hp
  · rename_i t h
    split at hp
    · rename_i ht
      subst ht
      injection hp with hh
      subst hh
      refine ⟨[], by simp, ?_, ?_, ?_⟩
      · show Forms (slice tokens next (next + 1 - 1)) []
        rw [show next + 1 - 1 = next from by omega, slice_self]
        exact Forms.nil
      · show tokens[next + 1 - 1]? = some Token.rp
        rw [show next + 1 - 1 = next from by omega]
        exact h
      · show next ≤ next + 1 - 1
        omega
    · rename_i ht
      split at hp
      · exact Except.noConfusion hp
      · rename_i _e n hn h2
        split at hp
        · exact Except.noConfusion hp
        · rename_i e2 n2 hn2 h3
          injection hp with hh
          subst hh
          have hF : Form (slice tokens next n) _e :=
            parse_expression_sound tokens next ⟨(_e, n), hn⟩ h2
          have hRec := parse_list_sound tokens n (acc ++ [_e]) ⟨(e2, n2), hn2⟩ h3
          obtain ⟨es, he1, hforms, hrp, hle⟩ := hRec
          refine ⟨_e :: es, ?_, ?_, hrp, ?_⟩
          · show e2 = Expr.list (acc ++ _e :: es)
            have hx : e2 = Expr.list ((acc ++ [_e]) ++ es) := by simpa using he1
            rw [hx]
            simp
          · show Forms (slice tokens next (n2 - 1)) (_e :: es)
            rw [slice_split tokens next n (n2 - 1) (by omega) hle]
            exact Forms.cons _ _ _ _ hF hforms
          · show next ≤ n2 - 1
            omega
termination_by ((tokens.length - next, 1) : Nat × Nat)
decreasing_by
  · exact Prod.Lex.right _ (by omega)
  · exact Prod.Lex.left _ _ (by omega)

end

/-- Reading an appended list at exactly the prefix length. -/
theorem getElem?_append_len {α : Type} (pre rest : List α) :
    (pre ++ rest)[pre.length]? = rest[0]? := by
  have h := getElem?_append_offset pre rest 0
  simpa using h

/-- Completeness statement for one expression: wherever its token
sequence occurs, `parse_expression` started at its first token
returns its parse and consumes exactly its tokens. -/
def FormComplete (w : List Token) (e : Expr) : Prop :=
  ∀ pre post : List Token,
    parseExpR (pre ++ (w ++ post)) pre.length = .ok (e, pre.length + w.length)

/-- One symbolic step of `parse_expression` on an atom token. -/
theorem pe_tok (tokens : List Token) (i : Nat) (a : Atom)
    (h : tokens[i]? = some (Token.tok a)) :
    parseExpR tokens i = .ok (atomToExpr a, i + 1) := by
  unfold parseExpR
  unfold parse_expression
  split
  · rename_i h'
    rw [h] at h'
    exact Option.noConfusion h'
  · rename_i h'
    rw [h] at h'
    injection h' with hh
    exact Token.noConfusion hh
  · rename_i h'
    rw [h] at h'
    injection h' with hh
    exact Token.noConfusion hh
  · rename_i a' h'
    rw [h] at h'
    injection h' with hh
    injection hh with hh2
    subst hh2
    rfl

/-- One symbolic step of `parse_expression` on `(`: delegate to the
collection loop. -/
theorem pe_lp (tokens : List Token) (i : Nat)
    (h : tokens[i]? = some Token.lp) (v : Expr × Nat)
    (hl : parseListR tokens (i + 1) [] = .ok v) :
    parseExpR tokens i = .ok v := by
  obtain ⟨a1, ha1, hv1⟩ := except_map_ok _ _ _ hl
  unfold parseExpR
  unfold parse_expression
  split
  · rename_i h'
    rw [h] at h'
    exact Option.noConfusion h'
  · split
    · rename_i e0 h2
      rw [ha1] at h2
      exact Except.noConfusion h2
    · rename_i e n hn h2
      rw [ha1] at h2
      injection h2 with hh
      show Except.ok (e, n) = Except.ok v
      exact congrArg Except.ok (by rw [hh] at hv1; exact hv1)
  · rename_i h'
    rw [h] at h'
    injection h' with hh
    exact Token.noConfusion hh
  · rename_i a' h'
    rw [h] at h'
    injection h' with hh
    exact Token.noConfusion hh

/-- One symbolic step of `parse_list` at the closing `)`. -/
theorem pl_rp (tokens : List Token) (n : Nat) (acc : List Expr)
    (h : tokens[n]? = some Token.rp) :
    parseListR tokens n acc = .ok (.list acc, n + 1) := by
  unfold parseListR
  unfold parse_list
  split
  · rename_i h'
    rw [h] at h'
    exact Option.noConfusion h'
  · rename_i t h'
    rw [h] at h'
    injection h' with hh
    subst hh
    split
    · rfl
    · rename_i hne
      exact absurd rfl hne

/-- One symbolic step of `parse_list` at a non-`)` token: parse one
sub-expression and continue the loop from where it stopped. -/
theorem pl_step (tokens : List Token) (n : Nat) (acc : List Expr) (t : Token)
    (h : tokens[n]? = some t) (ht : t ≠ Token.rp) (e : Expr) (m : Nat)
    (hpe : parseExpR tokens n = .ok (e, m))
    (v : Expr × Nat) (hpl : parseListR tokens m (acc ++ [e]) = .ok v) :
    parseListR tokens n acc = .ok v := by
  obtain ⟨a1, ha1, hv1⟩ := except_map_ok _ _ _ hpe
  obtain ⟨a2, ha2, hv2⟩ := except_map_ok _ _ _ hpl
  unfold parseListR
  unfold parse_list
  split
  · rename_i h'
    rw [h] at h'
    exact Option.noConfusion h'
  · rename_i t' h'
    rw [h] at h'
    injection h' with ht'
    subst ht'
    split
    · rename_i hrp
      exact absurd hrp ht
    · split
      · rename_i e0 h2
        rw [ha1] at h2
        exact Except.noConfusion h2
      · rename_i _e n' hn h2
        rw [ha1] at h2
        injection h2 with hh
        have hcomp : (_e, n') = (e, m) := by rw [hh] at hv1; exact hv1
        injection hcomp with h3 h4
        subst h3
        subst h4
        split
        · rename_i e2 h5
          rw [ha2] at h5
          exact Except.noConfusion h5
        · rename_i e2 n2 hn2 h5
          rw [ha2] at h5
          injection h5 with hh2
          show Except.ok (e2, n2) = Except.ok v
          exact congrArg Except.ok (by rw [hh2] at hv2; exact hv2)

/-- Completeness of the collection loop: on a concatenation of
well-formed expressions followed by `)`, `parse_list` appends their
parses to the accumulator and stops just past the `)`.  The bound `N`
drives the induction; the hypothesis `hP` supplies completeness of
the individual expressions. -/
theorem forms_complete (N : Nat) :
    ∀ (ws : List Token) (es : List Expr), Forms ws es → ws.length ≤ N →
      (∀ w e, Form w e → w.length ≤ N → FormComplete w e) →
      ∀ (pre post : List Token) (acc : List Expr),
        parseListR (pre ++ (ws ++ (Token.rp :: post))) pre.length acc =
          .ok (.list (acc ++ es), pre.length + (ws.length + 1)) := by
  induction N with
  | zero =>
    intro ws es hws hlen hP pre post acc
    cases hws with
    | nil =>
      have h0 : (pre ++ (([] : List Token) ++ (Token.rp :: post)))[pre.length]? =
          some Token.rp := by
        rw [getElem?_append_len]
        simp
      have h := pl_rp _ _ acc h0
      simpa using h
    | cons w ws' e es' hF hFs =>
      obtain ⟨hd, tl, hw, hhd⟩ := form_head w e hF
      subst hw
      simp at hlen
  | succ N ih =>
    intro ws es hws hlen hP pre post acc
    cases hws with
    | nil =>
      have h0 : (pre ++ (([] : List Token) ++ (Token.rp :: post)))[pre.length]? =
          some Token.rp := by
        rw [getElem?_append_len]
        simp
      have h := pl_rp _ _ acc h0
      simpa using h
    | cons w ws' e es' hF hFs =>
      obtain ⟨hd, tl, hw, hhd⟩ := form_head w e hF
      have hwlen : 1 ≤ w.length := by rw [hw]; simp
      have hlen' : w.length + ws'.length ≤ N + 1 := by
        simpa using hlen
      have h0 : (pre ++ ((w ++ ws') ++ (Token.rp :: post)))[pre.length]? =
          some hd := by
        rw [getElem?_append_len, hw]
        simp
      have hpe := hP w e hF (by omega) pre (ws' ++ (Token.rp :: post))
      have hassoc1 : pre ++ (w ++ (ws' ++ (Token.rp :: post))) =
          pre ++ ((w ++ ws') ++ (Token.rp :: post)) := by simp
      rw [hassoc1] at hpe
      have hpl := ih ws' es' hFs (by omega)
        (fun w' e' hF' hl' => hP w' e' hF' (by omega))
        (pre ++ w) post (acc ++ [e])
      have hassoc2 : (pre ++ w) ++ (ws' ++ (Token.rp :: post)) =
          pre ++ ((w ++ ws') ++ (Token.rp :: post)) := by simp
      rw [hassoc2, List.length_append] at hpl
      have hstep := pl_step _ _ acc hd h0 hhd e (pre.length + w.length) hpe _ hpl
      have hval : Expr.list ((acc ++ [e]) ++ es') = Expr.list (acc ++ e :: es') := by
        simp
      have hnat : pre.length + w.length + (ws'.length + 1) =
          pre.length + ((w ++ ws').length + 1) := by
        simp only [List.length_append]
        omega
      rw [hval, hnat] at hstep
      exact hstep

/-- Completeness of `parse_expression`: started at the first token of
a well-formed expression it returns its parse and consumes exactly
its tokens, in any surrounding context. -/
theorem form_complete (N : Nat) :
    ∀ (w : List Token) (e : Expr), Form w e → w.length ≤ N →
      FormComplete w e := by
  induction N with
  | zero =>
    intro w e hF hlen
    obtain ⟨hd, tl, hw, hhd⟩ := form_head w e hF
    subst hw
    simp at hlen
  | succ N ih =>
    intro w e hF hlen
    cases hF with
    | atom a =>
      intro pre post
      have h0 : (pre ++ ([Token.tok a] ++ post))[pre.length]? =
          some (Token.tok a) := by
        rw [getElem?_append_len]
        simp
      have h := pe_tok _ _ _ h0
      simpa using h
    | list ws es hws =>
      intro pre post
      have hwslen : ws.length + 2 ≤ N + 1 := by simpa using hlen
      have hforms := forms_complete N ws es hws (by omega)
        (fun w' e' hF' hl' => ih w' e' hF' hl')
        (pre ++ [Token.lp]) post []
      have htok : pre ++ ((Token.lp :: ws ++ [Token.rp]) ++ post) =
          (pre ++ [Token.lp]) ++ (ws ++ (Token.rp :: post)) := by simp
      have hlen1 : (pre ++ [Token.lp]).length = pre.length + 1 := by simp
      rw [hlen1, ← htok] at hforms
      have h0 : (pre ++ ((Token.lp :: ws ++ [Token.rp]) ++ post))[pre.length]? =
          some Token.lp := by
        rw [getElem?_append_len]
        simp
      have h := pe_lp _ _ h0 _ hforms
      have hval : Expr.list (([] : List Expr) ++ es) = Expr.list es := by simp
      have hnat : pre.length + 1 + (ws.length + 1) =
          pre.length + (Token.lp :: ws ++ [Token.rp]).length := by
        simp only [List.length_cons, List.length_append, List.length_nil]
        omega
      rw [hval, hnat] at h
      exact h

/-- Completeness of `parse`: a well-formed token sequence parses to
its expression. -/
theorem parse_complete (ts : List Token) (e : Expr) (h : Form ts e) :
    parse ts = .ok e := by
  have hc := form_complete ts.length ts e h (le_refl _) [] []
  have hc' : parseExpR ts 0 = .ok (e, ts.length) := by simpa using hc
  obtain ⟨a, ha, hv⟩ := except_map_ok _ _ _ hc'
  unfold parse
  split
  · rename_i e0 h2
    rw [ha] at h2
    exact Except.noConfusion h2
  · rename_i e1 n hn h2
    rw [ha] at h2
    injection h2 with hh
    have h5 : (e1, n) = (e, ts.length) := by rw [hh] at hv; exact hv
    injection h5 with h6 h7
    subst h6
    subst h7
    rw [if_pos rfl]

/-- Soundness of `parse`: a successful parse means the token sequence
was one complete well-formed expression deriving that result. -/
theorem parse_sound_form (ts : List Token) (e : Expr) (h : parse ts = .ok e) :
    Form ts e := by
  unfold parse at h
  split at h
  · exact Except.noConfusion h
  · rename_i e1 n hn h2
    split at h
    · rename_i hlen
      injection h with hh
      subst hh
      have hs : Form (slice ts 0 n) e1 :=
        parse_expression_sound ts 0 ⟨(e1, n), hn⟩ h2
      rw [hlen, slice_all] at hs
      exact hs
    · exact Except.noConfusion h

/-- Error kinds of `parse` on nonempty input: only a syntax error. -/
theorem parse_error_kind (ts : List Token) (hne : ts ≠ []) (err : Err)
    (h : parse ts = .error err) : err = .syntaxError := by
  unfold parse at h
  split at h
  · rename_i e0 h2
    injection h with hh
    have h0 : 0 < ts.length := by
      cases ts with
      | nil => exact absurd rfl hne
      | cons a l => simp
    exact hh ▸ parse_expression_error_kind ts 0 h0 e0 h2
  · rename_i e1 n hn h2
    split at h
    · exact Except.noConfusion h
    · injection h with hh
      exact hh.symm

/-- `parse` on the empty token sequence: the host `IndexError`. -/
theorem parse_nil : parse ([] : List Token) = .error .indexError := by
  unfold parse parse_expression
  rfl

/-- C4 counterexample: the empty token sequence does not form one
complete well-formed expression, yet `parse` fails with the host
`IndexError` (from `tokens[0]` in `parse_expression`), not with a
`SchemeSyntaxError`. -/
theorem parse_empty_counterexample :
    (∀ e, ¬ Form ([] : List Token) e) ∧
    parse ([] : List Token) = .error Err.indexError ∧
    Err.indexError ≠ Err.syntaxError := by
  refine ⟨?_, parse_nil, ?_⟩
  · intro e h
    obtain ⟨hd, tl, hw, _⟩ := form_head _ _ h
    exact List.noConfusion hw
  · intro h
    exact Err.noConfusion h

/-- C4 (amended): every well-formed single expression parses to its
Expression; a successful parse conversely certifies well-formedness;
every NONEMPTY token sequence that does not form exactly one complete
well-formed expression — unmatched `)`, end of input before a closing
`)`, leftover tokens after the first complete expression — fails with
the SyntaxError kind and with no other kind of error; but the empty
token sequence fails with the host IndexError kind instead. -/
theorem parse_correctness :
    (∀ ts e, Form ts e → parse ts = .ok e) ∧
    (∀ ts e, parse ts = .ok e → Form ts e) ∧
    (∀ ts, ts ≠ [] →
      (∃ e, parse ts = .ok e ∧ Form ts e) ∨
      (parse ts = .error .syntaxError ∧ ∀ e, ¬ Form ts e)) ∧
    parse ([] : List Token) = .error Err.indexError := by
  refine ⟨fun ts e h => parse_complete ts e h,
    fun ts e h => parse_sound_form ts e h, ?_, parse_nil⟩
  intro ts hne
  cases hr : parse ts with
  | ok e => exact Or.inl ⟨e, rfl, parse_sound_form ts e hr⟩
  | error err =>
    have hk := parse_error_kind ts hne err hr
    subst hk
    refine Or.inr ⟨rfl, fun e hF => ?_⟩
    rw [parse_complete ts e hF] at hr
    exact Except.noConfusion hr

/-- C4 witness: the token sequence of `(1 2)` parses to the list
expression, via the completeness half applied to its grammar
derivation. -/
theorem parse_correctness_witness :
    parse [Token.lp, Token.tok (Atom.aint 1), Token.tok (Atom.aint 2), Token.rp]
      = .ok (.list [.int 1, .int 2]) :=
  parse_correctness.1 _ _
    (Form.list _ _ (Forms.cons _ _ _ _ (Form.atom (Atom.aint 1))
      (Forms.cons _ _ _ _ (Form.atom (Atom.aint 2)) Forms.nil)))

end LispPy
